import Mathlib

/-!
# The ADF to Markdown renderer of `_internal/jira/adf.go`

A shallow embedding of `convertNodeToMarkdownWithLimit`, of the library
functions it calls, of the entry point `ConvertADFToMarkdown` and of
`NormalizeIssueKey` from `_internal/jira/models.go`, followed by their
properties.

Modelling conventions.

* Go `string` values are modelled by `String`.  The document strings come out
  of `encoding/json`, which only produces valid UTF-8, and every pattern the
  renderer searches for is valid UTF-8, so searching and trimming by Unicode
  code point agrees with Go's byte-wise search.
* Go `int` values are modelled by `Int`.  The only arithmetic on them is
  `depth+1`, `listDepth+1` and `i+1`; the single caller starts at
  `depth = 0`, `maxDepth = 10`, `listDepth = 0`.
* A run-time panic is the result `none`; a returned string `s` is `some s`.
  The only panic site is `strings.Repeat`: a negative count, a length that
  overflows `int`, or a result beyond the allocation limit `maxAlloc` of
  the runtime.  An allocation within that limit is taken to succeed: the
  memory of the machine is not part of the model.
* A `float64` stored in `attrs` is modelled by its rational value (JSON
  decoding yields finite values only).
* The entry point `ConvertADFToMarkdown` takes what lies outside the
  repository as parameters: `json.Marshal`, `json.Unmarshal` and the external
  program `adf2md`.  A Go `error` is modelled by its text, the nil error by
  `none`.
-/

namespace Jira

/-! ## Data model -/

/-- An untyped `interface{}` value stored in `Attrs`, as `encoding/json`
produces it: `nil`, `bool`, `float64`, `string`, `[]interface{}` or
`map[string]interface{}`. -/
inductive AttrValue where
  | null
  | bool (b : Bool)
  | num (v : ℚ)
  | str (s : String)
  | arr (items : List AttrValue)
  | obj (fields : List (String × AttrValue))

/-- ADFMark represents formatting marks in ADF. -/
structure ADFMark where
  type : String

/-- ADFNode represents a node in Atlassian Document Format.  `attrs` is
`none` for a nil map; a map is the list of its bindings, looked up by key. -/
inductive ADFNode where
  | mk (type : String) (content : List ADFNode) (text : String)
      (marks : List ADFMark) (attrs : Option (List (String × AttrValue)))

namespace ADFNode

/-- Field `Type`. -/
def type : ADFNode → String
  | mk t _ _ _ _ => t

/-- Field `Content`. -/
def content : ADFNode → List ADFNode
  | mk _ c _ _ _ => c

/-- Field `Text`. -/
def text : ADFNode → String
  | mk _ _ t _ _ => t

/-- Field `Marks`. -/
def marks : ADFNode → List ADFMark
  | mk _ _ _ m _ => m

/-- Field `Attrs`. -/
def attrs : ADFNode → Option (List (String × AttrValue))
  | mk _ _ _ _ a => a

end ADFNode

/-! ## Library functions -/

/-- The map index expression `m[key]` on a possibly nil map: the bound value,
or `none` (the nil interface) when the key is absent. -/
def mapIndex (m : Option (List (String × AttrValue))) (key : String) : Option AttrValue :=
  match m with
  | none => none
  | some bindings => bindings.lookup key

/-- The type assertion `v.(string)` with its `ok` flag. -/
def assertString : Option AttrValue → Option String
  | some (AttrValue.str s) => some s
  | _ => none

/-- The type assertion `v.(float64)` with its `ok` flag. -/
def assertFloat64 : Option AttrValue → Option ℚ
  | some (AttrValue.num v) => some v
  | _ => none

/-- The conversion `int(l)` of a `float64`: the fraction is discarded
(truncation toward zero).  Outside the `int64` range the Go specification
leaves the result to the implementation; amd64 yields the least `int64`. -/
def float64ToInt (v : ℚ) : Int :=
  let t := Int.tdiv v.num v.den
  if -(2 : Int) ^ 63 ≤ t ∧ t < (2 : Int) ^ 63 then t else -(2 : Int) ^ 63

/-- The length `len(s)` of a string in bytes. -/
def byteLength (s : String) : Nat :=
  s.utf8ByteSize

/-- The greatest value of the type `int` on a 64-bit platform. -/
def maxInt : Int :=
  2 ^ 63 - 1

/-- The constant `maxAlloc` of the Go runtime on 64-bit platforms: the size
in bytes beyond which an allocation panics. -/
def maxAlloc : Nat :=
  2 ^ 48

/-- The function `strings.Repeat`.  It returns at once for the counts 0 and
1; it panics when `count` is negative (`negative Repeat count`), when
`len(s) * count` does not fit an `int` (`Repeat output length overflow`),
and when the result is larger than the runtime allocates (`makeslice: len
out of range`). -/
def stringsRepeat (s : String) (count : Int) : Option String :=
  if count = 0 then some ""
  else if count = 1 then some s
  else if count < 0 then none
  else if (byteLength s : Int) * count > maxInt then none
  else if byteLength s * count.toNat > maxAlloc then none
  else some (String.join (List.replicate count.toNat s))

/-- The function `strings.HasPrefix`. -/
def stringsHasPrefix (s pre : String) : Bool :=
  pre.data.isPrefixOf s.data

/-- Whether `sub` occurs in the character list at some position. -/
def containsChars (sub : List Char) : List Char → Bool
  | [] => sub.isEmpty
  | c :: cs => sub.isPrefixOf (c :: cs) || containsChars sub cs

/-- The function `strings.Contains`. -/
def stringsContains (s sub : String) : Bool :=
  containsChars sub.data s.data

/-- The scan of `strings.ReplaceAll` for a non-empty `old`: `skip` counts the
characters of a match that are still to be passed over. -/
def replaceAllChars (old new : List Char) : Nat → List Char → List Char
  | _, [] => []
  | skip + 1, _ :: cs => replaceAllChars old new skip cs
  | 0, c :: cs =>
    if old.isPrefixOf (c :: cs) then new ++ replaceAllChars old new (old.length - 1) cs
    else c :: replaceAllChars old new 0 cs

/-- The function `strings.ReplaceAll`: non-overlapping occurrences of `old`,
found left to right, are replaced by `new`; with an empty `old` the
replacement is inserted before every character and at the end. -/
def stringsReplaceAll (s old new : String) : String :=
  if old.data.isEmpty then
    String.mk (new.data ++ (s.data.map (fun c => c :: new.data)).flatten)
  else String.mk (replaceAllChars old.data new.data 0 s.data)

/-- The predicate `unicode.IsSpace`. -/
def isSpace (c : Char) : Bool :=
  let n := c.toNat
  (9 ≤ n && n ≤ 13) || n = 32 || n = 133 || n = 160 || n = 5760
    || (8192 ≤ n && n ≤ 8202) || n = 8232 || n = 8233 || n = 8239
    || n = 8287 || n = 12288

/-- Removal of the trailing characters that satisfy `p`. -/
def dropTrailing (p : Char → Bool) (cs : List Char) : List Char :=
  (cs.reverse.dropWhile p).reverse

/-- The function `strings.TrimSpace`. -/
def stringsTrimSpace (s : String) : String :=
  String.mk (dropTrailing isSpace (s.data.dropWhile isSpace))

/-- The function `strings.TrimRight`: trailing characters contained in
`cutset` are removed. -/
def stringsTrimRight (s cutset : String) : String :=
  String.mk (dropTrailing (fun c => cutset.data.contains c) s.data)

/-- The decimal text of `fmt.Sprintf("%d", n)` for a non-negative `n`. -/
def sprintDecimal (n : Nat) : String :=
  Nat.repr n

/-! ## The emoji helpers of `_internal/io/format_helpers.go` -/

/-- The table `emojiMap` of `getEmojiForType`. -/
def emojiMap : List (String × String) :=
  [("ticket", "🎫"), ("url", "🔗"), ("fetch", "🌐"), ("cache", "🔄"),
   ("success", "✅"), ("error", "❌"), ("warning", "⚠️"), ("info", "ℹ️"),
   ("file", "📋"), ("commits", "*"), ("branches", "⤴️"), ("user", "👥"),
   ("activity", "👥"), ("ai", "🤖")]

/-- The function `getEmojiForType`: a missing key yields the empty string. -/
def getEmojiForType (contentType : String) : String :=
  (emojiMap.lookup contentType).getD ""

/-- FormatWithEmoji adds contextual emoji based on content type. -/
def FormatWithEmoji (text contentType : String) : String :=
  let emoji := getEmojiForType contentType
  if emoji ≠ "" then emoji ++ " " ++ text else text

/-- Whether the characters start with a match of the pattern `-\d+`. -/
def matchDashDigits : List Char → Bool
  | '-' :: d :: _ => d.isDigit
  | _ => false

/-- The call `regexp.MatchString` with the pattern `^[A-Z]+-\d+`: the run of
capitals at the start is non-empty and is followed by a dash and a digit. -/
def matchTicketKey (text : String) : Bool :=
  let capitals := text.data.takeWhile Char.isUpper
  !capitals.isEmpty && matchDashDigits (text.data.dropWhile Char.isUpper)

/-- AutoFormatEmoji detects URLs and ticket keys and adds their emoji. -/
def AutoFormatEmoji (text : String) : String :=
  if stringsHasPrefix text "http://" || stringsHasPrefix text "https://" then
    FormatWithEmoji text "url"
  else if matchTicketKey text then FormatWithEmoji text "ticket"
  else text

/-! ## The renderer -/

/-- The bullet literal of the `listItem` case, code points U+201A U+00C4
U+00A2 followed by a space, as the source file spells it. -/
def bulletPrefix : String := "‚Ä¢ "

/-- The marker literals tested by the `paragraph` case, as the source file
spells them (the fourth starts with the code point U+F8FF), and the literal
`https://`. -/
def paragraphMarkers : List String :=
  ["‚Ä¢", "‚úÖ", "‚ùì", "\uF8FFüîó", "https://"]

/-- One iteration of the marks loop of the `text` case. -/
def applyMark (text : String) (mark : ADFMark) : String :=
  if mark.type = "strong" then "**" ++ text ++ "**"
  else if mark.type = "em" then "*" ++ text ++ "*"
  else if mark.type = "code" then "`" ++ text ++ "`"
  else text

/-- The loop `for _, child := range node.Content { content.WriteString(...) }`
over the rendered children, from the empty builder. -/
def writeAll (items : List String) : String :=
  items.foldl (fun content item => content ++ item) ""

/-- The tail of the `paragraph` case, from `text := content.String()` on. -/
def paragraphText (content : String) : String :=
  let text := stringsReplaceAll content "****" ""
  let text := stringsReplaceAll text "***" "*"
  let cleanContent := stringsTrimSpace text
  if cleanContent = "" then ""
  else if paragraphMarkers.all (fun marker => !stringsContains cleanContent marker) then
    cleanContent ++ "\n"
  else cleanContent ++ "\n"

/-- The loop of the `bulletList` case: `i` is the index of the next item,
`len` is `len(node.Content)` and `content` the builder. -/
def bulletLoop (len : Int) : Int → List String → String → String
  | _, [], content => content
  | i, item :: rest, content =>
    let content := content ++ item
    bulletLoop len (i + 1) rest (if i < len - 1 then content ++ "\n" else content)

/-- The loop of the `orderedList` case. -/
def orderedLoop (len : Int) : Int → List String → String → String
  | _, [], content => content
  | i, item :: rest, content =>
    let cleanItem := stringsTrimRight item "\n"
    let content := content ++ (sprintDecimal (i + 1).toNat ++ ". " ++ cleanItem)
    orderedLoop len (i + 1) rest (if i < len - 1 then content ++ "\n" else content)

/-- The `switch node.Type` of `convertNodeToMarkdownWithLimit`.  `kids l` is
the list of the renderings of `node.Content`, each child rendered at
`depth+1` with list depth `l`; it is `none` when one of them panics. -/
def renderSwitch (node : ADFNode) (listDepth : Int)
    (kids : Int → Option (List String)) : Option String :=
  if node.type = "text" then
    some (node.marks.foldl applyMark node.text)
  else if node.type = "paragraph" then
    (kids listDepth).map (fun items => paragraphText (writeAll items))
  else if node.type = "heading" then
    (kids listDepth).bind (fun items =>
      let level : Int :=
        match node.attrs with
        | none => 1
        | some _ =>
          match assertFloat64 (mapIndex node.attrs "level") with
          | some l => float64ToInt l
          | none => 1
      (stringsRepeat "#" level).map (fun hashes =>
        hashes ++ " " ++ writeAll items ++ "\n"))
  else if node.type = "codeBlock" then
    (kids listDepth).map (fun items =>
      let language : String :=
        match node.attrs with
        | none => ""
        | some _ =>
          match assertString (mapIndex node.attrs "language") with
          | some lang => lang
          | none => ""
      "```" ++ language ++ "\n" ++ writeAll items ++ "\n```\n")
  else if node.type = "bulletList" then
    (kids (listDepth + 1)).map (fun items =>
      bulletLoop node.content.length 0 items "")
  else if node.type = "listItem" then
    (kids listDepth).bind (fun items =>
      let cleanContent := stringsTrimRight (writeAll items) "\n"
      (stringsRepeat "  " listDepth).map (fun indent =>
        indent ++ bulletPrefix ++ cleanContent))
  else if node.type = "orderedList" then
    (kids (listDepth + 1)).map (fun items =>
      orderedLoop node.content.length 0 items "")
  else if node.type = "hardBreak" then
    some "\n"
  else if node.type = "mention" then
    match node.attrs with
    | none => some "@unknown"
    | some _ =>
      match assertString (mapIndex node.attrs "text") with
      | some text => some text
      | none =>
        match assertString (mapIndex node.attrs "displayName") with
        | some displayName => some displayName
        | none => some "@unknown"
  else if node.type = "link" then
    match node.attrs with
    | none => some (FormatWithEmoji "unknown" "url")
    | some _ =>
      match assertString (mapIndex node.attrs "href") with
      | some href => some (AutoFormatEmoji href)
      | none => some (FormatWithEmoji "unknown" "url")
  else if node.type = "image" then
    let alt : String :=
      match node.attrs with
      | none => "Image"
      | some _ =>
        match assertString (mapIndex node.attrs "alt") with
        | some altText => altText
        | none => "Image"
    let src : String :=
      match node.attrs with
      | none => ""
      | some _ =>
        match assertString (mapIndex node.attrs "src") with
        | some srcURL => srcURL
        | none => ""
    if src ≠ "" then some ("![" ++ alt ++ "](" ++ src ++ ")")
    else some "@image"
  else if node.type = "emoji" then
    match node.attrs with
    | none => some ":unknown:"
    | some _ =>
      match assertString (mapIndex node.attrs "text") with
      | some text => some text
      | none =>
        match assertString (mapIndex node.attrs "shortName") with
        | some shortName => some (":" ++ shortName ++ ":")
        | none => some ":unknown:"
  else if node.type = "inlineCard" then
    match node.attrs with
    | none => some (FormatWithEmoji "unknown" "url")
    | some _ =>
      match assertString (mapIndex node.attrs "url") with
      | some url => some (AutoFormatEmoji url)
      | none => some (FormatWithEmoji "unknown" "url")
  else
    (kids listDepth).map writeAll

mutual

/-- The function `convertNodeToMarkdownWithLimit` converts an ADF node to
markdown with a recursion limit. -/
def convertNodeToMarkdownWithLimit : ADFNode → Int → Int → Int → Option String
  | ADFNode.mk type content text marks attrs, depth, maxDepth, listDepth =>
    if depth > maxDepth then some "[...]"
    else
      renderSwitch (ADFNode.mk type content text marks attrs) listDepth
        (fun l => renderChildren content (depth + 1) maxDepth l)

/-- The renderings of the children of a node, in order, all at the same
depth and list depth; `none` when one of the calls panics. -/
def renderChildren : List ADFNode → Int → Int → Int → Option (List String)
  | [], _, _, _ => some []
  | child :: rest, depth, maxDepth, listDepth =>
    match convertNodeToMarkdownWithLimit child depth maxDepth listDepth with
    | none => none
    | some item =>
      match renderChildren rest depth maxDepth listDepth with
      | none => none
      | some items => some (item :: items)

end

/-- The function `convertNodeToMarkdown` converts an ADF node to markdown. -/
def convertNodeToMarkdown (node : ADFNode) : Option String :=
  convertNodeToMarkdownWithLimit node 0 10 0

/-! ## The entry point -/

/-- A value of type `interface{}` handed to the entry point: the nil
interface, a value of type `string`, or a value of any other dynamic type. -/
inductive AnyValue (α : Type) where
  | nil
  | str (s : String)
  | other (v : α)

/-- What the entry point uses from outside the repository.  `jsonMarshal` is
`json.Marshal` (the JSON text, or the text of the error), `jsonUnmarshal` is
`json.Unmarshal` into an `ADFNode` (the node, or the text of the error), and
`adf2md` is the external program: `none` when `exec.LookPath` does not find
it, otherwise the standard output of a run on the given standard input, or
the text of the error of `cmd.Output`. -/
structure Collaborators (α : Type) where
  jsonMarshal : AnyValue α → Except String String
  jsonUnmarshal : String → Except String ADFNode
  adf2md : Option (String → Except String String)

/-- The function `convertWithADF2MD` uses the external adf2md library. -/
def convertWithADF2MD {α : Type} (env : Collaborators α) (jsonData : String) :
    Except String String :=
  match env.adf2md with
  | none => Except.error "adf2md not found"
  | some run =>
    match run jsonData with
    | Except.error err => Except.error ("adf2md conversion failed: " ++ err)
    | Except.ok output => Except.ok (stringsTrimSpace output)

/-- The function `convertADFSimple` provides a basic ADF to markdown
conversion.  The results are the string and the error (`none` for nil); the
deferred `recover` turns a panic of the renderer into the zero results. -/
def convertADFSimple {α : Type} (env : Collaborators α) (adfContent : AnyValue α) :
    String × Option String :=
  match env.jsonMarshal adfContent with
  | Except.error err => ("", some err)
  | Except.ok jsonData =>
    match env.jsonUnmarshal jsonData with
    | Except.error _ => (jsonData, none)
    | Except.ok node =>
      match convertNodeToMarkdown node with
      | some markdown => (markdown, none)
      | none => ("", none)

/-- The function `ConvertADFToMarkdown` converts ADF content to markdown. -/
def ConvertADFToMarkdown {α : Type} (env : Collaborators α) (adfContent : AnyValue α) :
    String × Option String :=
  match adfContent with
  | AnyValue.nil => ("No description", none)
  | AnyValue.str str =>
    if str = "" ∨ str = "null" then ("No description", none) else (str, none)
  | AnyValue.other v =>
    match env.jsonMarshal (AnyValue.other v) with
    | Except.error err => ("", some ("failed to marshal ADF content: " ++ err))
    | Except.ok jsonData =>
      match convertWithADF2MD env jsonData with
      | Except.ok markdown => (markdown, none)
      | Except.error _ => convertADFSimple env (AnyValue.other v)

/-! ## The issue keys of `_internal/jira/models.go` -/

/-- The loop of `NormalizeIssueKey` over the characters of the key: `i` is
the byte offset of the next character, and the result tells whether the loop
returns the key. -/
def dashAfterStart : Nat → List Char → Bool
  | _, [] => false
  | i, char :: rest =>
    if char = '-' ∧ i > 0 then true else dashAfterStart (i + char.utf8Size) rest

/-- The test `len(issueKey) > 0 && issueKey[0] >= '0' && issueKey[0] <= '9'`:
the first byte is a digit exactly when the first character is one. -/
def startsWithDigit (issueKey : String) : Bool :=
  match issueKey.data with
  | [] => false
  | char :: _ => char.isDigit

/-- NormalizeIssueKey converts numeric shorthand to full issue key. -/
def NormalizeIssueKey (issueKey defaultProject : String) : String :=
  if dashAfterStart 0 issueKey.data then issueKey
  else if startsWithDigit issueKey then defaultProject ++ "-" ++ issueKey
  else issueKey

/-! ## Definitions used by the statements -/

/-- A mark of one of the three types the `text` case recognises. -/
def recognizedMark (mark : ADFMark) : Bool :=
  mark.type = "strong" || mark.type = "em" || mark.type = "code"

/-- The node with its `Marks` field replaced. -/
def withMarks (node : ADFNode) (marks : List ADFMark) : ADFNode :=
  ADFNode.mk node.type node.content node.text marks node.attrs

/-- The entries the claim about ordered lists describes: the item at
position `k`, counted from `first`, without its trailing newlines and
preceded by the decimal form of `k + 1`, a dot and a space. -/
def numberedItems (first : Nat) (items : List String) : List String :=
  (items.enumFrom first).map
    (fun entry => sprintDecimal (entry.1 + 1) ++ ". " ++ stringsTrimRight entry.2 "\n")

/-- The level the claim about headings describes: the number bound to
`level` in `attrs` converted to an integer, and 1 when `attrs` is absent,
has no `level`, or binds it to something that is not a number. -/
def headingLevel (node : ADFNode) : Int :=
  match mapIndex node.attrs "level" with
  | some (AttrValue.num l) => float64ToInt l
  | _ => 1

/-- A text node without marks. -/
def textNode (text : String) : ADFNode :=
  ADFNode.mk "text" [] text [] none

/-- A heading whose `attrs` bind `level` to the given number. -/
def headingNode (level : ℚ) (content : List ADFNode) : ADFNode :=
  ADFNode.mk "heading" content "" [] (some [("level", AttrValue.num level)])

/-- A node of the given type that has only content. -/
def containerNode (type : String) (content : List ADFNode) : ADFNode :=
  ADFNode.mk type content "" [] none

/-- Whether the case of the switch for this node type contains a loop over
`node.Content`, that is, whether it calls the renderer on the children. -/
def descends (type : String) : Bool :=
  !(["text", "hardBreak", "mention", "link", "image", "emoji", "inlineCard"].contains type)

mutual

/-- The `depth` arguments of all the calls of `convertNodeToMarkdownWithLimit`
that the call on `node` at `depth` leads to, the nested ones included, in
the order in which a run without panic makes them (a panic ends the run
early, and then only a part of them is made). -/
def recursiveCalls : ADFNode → Int → Int → List Int
  | ADFNode.mk type content _ _ _, depth, maxDepth =>
    if depth > maxDepth then []
    else if descends type then childCalls content (depth + 1) maxDepth
    else []

/-- The `depth` arguments of the calls on the children, each followed by
those of the calls it leads to. -/
def childCalls : List ADFNode → Int → Int → List Int
  | [], _, _ => []
  | child :: rest, depth, maxDepth =>
    depth :: (recursiveCalls child depth maxDepth ++ childCalls rest depth maxDepth)

end

mutual

/-- Every heading of the tree has a level that is not negative and not above
the allocation limit. -/
def levelsOk : ADFNode → Bool
  | ADFNode.mk type content text marks attrs =>
    (type != "heading" ||
        decide (0 ≤ headingLevel (ADFNode.mk type content text marks attrs) ∧
          headingLevel (ADFNode.mk type content text marks attrs) ≤ maxAlloc))
      && allLevelsOk content

/-- Every heading of the trees has a level that is not negative and not above
the allocation limit. -/
def allLevelsOk : List ADFNode → Bool
  | [] => true
  | child :: rest => levelsOk child && allLevelsOk rest

end

/-- The tree cut below `levels` levels: the nodes `levels` steps below the
root lose their content, everything above is kept. -/
def prune : Nat → ADFNode → ADFNode
  | 0, node => ADFNode.mk node.type [] node.text node.marks node.attrs
  | levels + 1, node =>
    ADFNode.mk node.type (node.content.map (prune levels)) node.text node.marks node.attrs

/-- A chain of `levels` nested `doc` nodes around the text `x`. -/
def nestedDocs : Nat → ADFNode
  | 0 => textNode "x"
  | levels + 1 => containerNode "doc" [nestedDocs levels]

/-- Text as the claim about nested lists takes it: not empty, without an
asterisk, and neither starting nor ending with white space. -/
def isPlain (s : String) : Bool :=
  !s.data.isEmpty && !s.data.contains '*' && !s.data.head?.any isSpace &&
    !s.data.getLast?.any isSpace

/-- A paragraph that holds one text node without marks. -/
def plainParagraph (text : String) : ADFNode :=
  containerNode "paragraph" [textNode text]

/-- A listItem that holds one paragraph of text. -/
def plainItem (text : String) : ADFNode :=
  containerNode "listItem" [plainParagraph text]

/-- The tree of the claim about nested lists: a bulletList with one listItem,
which holds a paragraph of text and a bulletList of items of text. -/
def nestedBulletList (outer : String) (inner : List String) : ADFNode :=
  containerNode "bulletList"
    [containerNode "listItem"
      [plainParagraph outer, containerNode "bulletList" (inner.map plainItem)]]

/-- A string that is not empty and does not end with a newline. -/
def EndsClean (s : String) : Prop :=
  s.data ≠ [] ∧ s.data.getLast? ≠ some '\n'

/-- The language the claim about code blocks describes: the string bound to
`language` in `attrs`, and the empty string when `attrs` is absent, has no
`language`, or binds it to something that is not a string. -/
def codeLanguage (node : ADFNode) : String :=
  match mapIndex node.attrs "language" with
  | some (AttrValue.str lang) => lang
  | _ => ""

/-- A code block whose `attrs` bind `language` to the given string. -/
def codeBlockNode (language : String) (content : List ADFNode) : ADFNode :=
  ADFNode.mk "codeBlock" content "" [] (some [("language", AttrValue.str language)])

/-- A text node with the given marks. -/
def markedText (text : String) (markTypes : List String) : ADFNode :=
  ADFNode.mk "text" [] text (markTypes.map ADFMark.mk) none

/-- The node types that have a case of their own in the switch. -/
def knownTypes : List String :=
  ["text", "paragraph", "heading", "codeBlock", "bulletList", "listItem",
   "orderedList", "hardBreak", "mention", "link", "image", "emoji", "inlineCard"]

/-- The node `shell` with the single child `child`. -/
def withChild (shell child : ADFNode) : ADFNode :=
  ADFNode.mk shell.type [child] shell.text shell.marks shell.attrs

/-- The chain of nested single-child nodes made of the given shells, the
first one outermost, around `inner`. -/
def nest : List ADFNode → ADFNode → ADFNode
  | [], inner => inner
  | shell :: rest, inner => withChild shell (nest rest inner)

/-- The wrappers of the given shells, the first one outermost, rendered
around `placeholder`: every shell goes through the switch with the single
child rendering handed up from the next level. -/
def wrapAround (placeholder : String) : List ADFNode → Int → Option String
  | [], _ => some placeholder
  | shell :: rest, listDepth =>
    renderSwitch (withChild shell (textNode placeholder)) listDepth
      (fun l => (wrapAround placeholder rest l).map (fun s => [s]))

/-- The number of asterisks the marks `strong` and `em` put on each side. -/
def asterisks : List ADFMark → Nat
  | [] => 0
  | mark :: rest => (if mark.type = "strong" then 2 else 1) + asterisks rest

/-- Collaborators for a value that `json.Marshal` rejects, without the
external program. -/
def rejectingEnv : Collaborators Unit where
  jsonMarshal := fun _ => Except.error "json: unsupported type: chan int"
  jsonUnmarshal := fun _ => Except.error "unexpected end of JSON input"
  adf2md := none

/-- Collaborators for the value 5: its JSON text is `5`, which does not
decode into a node; the external program is not installed. -/
def numberEnv : Collaborators Unit where
  jsonMarshal := fun _ => Except.ok "5"
  jsonUnmarshal := fun _ =>
    Except.error "json: cannot unmarshal number into Go value of type jira.ADFNode"
  adf2md := none

/-- Collaborators for a document whose JSON text decodes into a heading with
the text `Title`; the external program answers ` # T ` and a newline. -/
def toolEnv : Collaborators Unit where
  jsonMarshal := fun _ =>
    Except.ok ("\x7b\"type\":\"heading\",\"attrs\":\x7b\"level\":2\x7d," ++
      "\"content\":[\x7b\"type\":\"text\",\"text\":\"Title\"\x7d]\x7d")
  jsonUnmarshal := fun _ => Except.ok (headingNode 2 [textNode "Title"])
  adf2md := some (fun _ => Except.ok " # T \n")

/-- The string bound to `key` in `attrs`, when `attrs` is present and binds
`key` to a string. -/
def attrString (node : ADFNode) (key : String) : Option String :=
  assertString (mapIndex node.attrs key)

/-- A node of the given type and content whose `attrs` are the given
bindings. -/
def attrNode (type : String) (bindings : List (String × AttrValue))
    (content : List ADFNode) : ADFNode :=
  ADFNode.mk type content "" [] (some bindings)

/-- Text that starts with one or more letters `A` to `Z` followed by a dash
and a decimal digit. -/
def StartsWithTicketKey (text : String) : Prop :=
  ∃ (letters : List Char) (digit : Char) (rest : List Char),
    letters ≠ [] ∧ (∀ c ∈ letters, c.isUpper = true) ∧ digit.isDigit = true ∧
      text.data = letters ++ '-' :: digit :: rest

/-- A key that is just a number: not empty and made of decimal digits only. -/
def isNumber (issueKey : String) : Bool :=
  !issueKey.data.isEmpty && issueKey.data.all Char.isDigit

/-- A key that has a dash at some position after its first character. -/
def hasDashAfterFirst (issueKey : String) : Bool :=
  issueKey.data.tail.contains '-'

mutual

/-- The height of a tree: 0 for a node without content, otherwise one more
than the greatest height of a child. -/
def height : ADFNode → Nat
  | ADFNode.mk _ content _ _ _ => heightAbove content

/-- The least height of a node that has these children. -/
def heightAbove : List ADFNode → Nat
  | [] => 0
  | child :: rest => max (height child + 1) (heightAbove rest)

end

mutual

/-- The renderer without the guard on the depth: the switch applied to the
renderings of the children, however deep the tree is. -/
def renderUnlimited : ADFNode → Int → Option String
  | ADFNode.mk type content text marks attrs, listDepth =>
    renderSwitch (ADFNode.mk type content text marks attrs) listDepth
      (fun l => renderAllUnlimited content l)

/-- The renderings of the children by the renderer without the guard. -/
def renderAllUnlimited : List ADFNode → Int → Option (List String)
  | [], _ => some []
  | child :: rest, listDepth =>
    match renderUnlimited child listDepth with
    | none => none
    | some item =>
      match renderAllUnlimited rest listDepth with
      | none => none
      | some items => some (item :: items)

end

/-- A paragraph that holds the two texts, each marked `strong`. -/
def twoBoldSpans (a b : String) : ADFNode :=
  containerNode "paragraph" [markedText a ["strong"], markedText b ["strong"]]

/-- Collaborators for a document that decodes into a `doc` with a paragraph
and a heading of level -1; the external program is not installed. -/
def negativeLevelEnv : Collaborators Unit where
  jsonMarshal := fun _ =>
    Except.ok ("\x7b\"type\":\"doc\",\"content\":[\x7b\"type\":\"paragraph\"," ++
      "\"content\":[\x7b\"type\":\"text\",\"text\":\"intro\"\x7d]\x7d," ++
      "\x7b\"type\":\"heading\",\"attrs\":\x7b\"level\":-1\x7d," ++
      "\"content\":[\x7b\"type\":\"text\",\"text\":\"Title\"\x7d]\x7d]\x7d")
  jsonUnmarshal := fun _ =>
    Except.ok (containerNode "doc"
      [containerNode "paragraph" [textNode "intro"], headingNode (-1) [textNode "Title"]])
  adf2md := none

/-- The number of asterisks at the start of the characters. -/
def leadingStars : List Char → Nat
  | [] => 0
  | c :: cs => if c = '*' then leadingStars cs + 1 else 0

/-! ## Properties -/

/-! ### Induction on trees and the body of the renderer -/

/-- Induction on a node tree: a property holds of every node when it holds
of a node as soon as it holds of the node's children. -/
theorem node_induction (P : ADFNode → Prop)
    (step : ∀ type content text marks attrs,
      (∀ child ∈ content, P child) → P (ADFNode.mk type content text marks attrs))
    (node : ADFNode) : P node :=
  @ADFNode.rec P (fun nodes => ∀ child ∈ nodes, P child)
    (fun type content text marks attrs ih => step type content text marks attrs ih)
    (fun child h => absurd h (List.not_mem_nil child))
    (fun head tail hh ht child h => by
      rcases List.mem_cons.mp h with h | h
      · exact h ▸ hh
      · exact ht child h)
    node

/-- The body of `convertNodeToMarkdownWithLimit`: the guard, then the switch
applied to the renderings of the node's own children. -/
theorem convert_unfold (node : ADFNode) (depth maxDepth listDepth : Int) :
    convertNodeToMarkdownWithLimit node depth maxDepth listDepth =
      if depth > maxDepth then some "[...]"
      else renderSwitch node listDepth
        (fun l => renderChildren node.content (depth + 1) maxDepth l) := by
  cases node
  rw [convertNodeToMarkdownWithLimit]
  rfl

/-- Within the ceiling the result is the one of the switch. -/
theorem convert_within (node : ADFNode) (depth maxDepth listDepth : Int)
    (h : depth ≤ maxDepth) :
    convertNodeToMarkdownWithLimit node depth maxDepth listDepth =
      renderSwitch node listDepth
        (fun l => renderChildren node.content (depth + 1) maxDepth l) := by
  rw [convert_unfold, if_neg (by omega)]

/-- A child is lower than its parent. -/
theorem height_child (type : String) (content : List ADFNode) (text : String)
    (marks : List ADFMark) (attrs : Option (List (String × AttrValue))) :
    ∀ child ∈ content, height child + 1 ≤ height (ADFNode.mk type content text marks attrs) := by
  rw [height]
  induction content with
  | nil => intro child h; simp at h
  | cons c rest ih =>
    intro child h
    rw [heightAbove]
    rcases List.mem_cons.mp h with e | hm
    · subst e
      exact le_max_left _ _
    · exact le_trans (ih child hm) (le_max_right _ _)

/-! ### Strings -/

/-- A text in front of the accumulator of `String.intercalate` stays in front. -/
theorem intercalate_go_append (x acc sep : String) (items : List String) :
    String.intercalate.go (x ++ acc) sep items = x ++ String.intercalate.go acc sep items := by
  induction items generalizing acc with
  | nil => rfl
  | cons item rest ih =>
    simp only [String.intercalate.go]
    rw [String.append_assoc, String.append_assoc, ← String.append_assoc acc, ih]

/-- Joining two or more strings: the first one, the separator, the join of the others. -/
theorem intercalate_cons_cons (sep a b : String) (rest : List String) :
    String.intercalate sep (a :: b :: rest) =
      a ++ sep ++ String.intercalate sep (b :: rest) := by
  simp only [String.intercalate, String.intercalate.go]
  rw [String.append_assoc, intercalate_go_append, intercalate_go_append, String.append_assoc]

/-- Joining a single string gives that string. -/
theorem intercalate_singleton (sep a : String) : String.intercalate sep [a] = a := rfl

/-- A text in front of the builder stays in front during the writes. -/
theorem foldl_append_init (items : List String) (a b : String) :
    items.foldl (fun r s => r ++ s) (a ++ b) = a ++ items.foldl (fun r s => r ++ s) b := by
  induction items generalizing b with
  | nil => rfl
  | cons item rest ih => simp only [List.foldl_cons, String.append_assoc, ih]

/-- Joining a list of strings: the first one, then the join of the others. -/
theorem join_cons (item : String) (rest : List String) :
    String.join (item :: rest) = item ++ String.join rest := by
  simp only [String.join, List.foldl_cons]
  have := foldl_append_init rest item ""
  simpa using this

/-- A newline in front of a newline-join is the join of the strings, each with
a newline in front. -/
theorem sep_intercalate (items : List String) (hne : items ≠ []) :
    "\n" ++ String.intercalate "\n" items =
      String.join (items.map (fun item => "\n" ++ item)) := by
  induction items with
  | nil => exact absurd rfl hne
  | cons item rest ih =>
    cases rest with
    | nil => simp [intercalate_singleton, join_cons, String.join]
    | cons next more =>
      rw [intercalate_cons_cons, List.map_cons, join_cons, ← ih (List.cons_ne_nil _ _)]
      simp [String.append_assoc]

/-- The scan changes nothing when the first character of `old` does not occur. -/
theorem replaceAllChars_absent (first : Char) (old new s : List Char)
    (h : first ∉ s) : replaceAllChars (first :: old) new 0 s = s := by
  induction s with
  | nil => rfl
  | cons c cs ih =>
    have hc : first ≠ c := fun e => h (e ▸ List.mem_cons_self _ _)
    have hcs : first ∉ cs := fun e => h (List.mem_cons_of_mem _ e)
    rw [replaceAllChars]
    simp [List.isPrefixOf, hc, ih hcs]

/-- Replacing changes nothing when the first character of `old` does not occur. -/
theorem stringsReplaceAll_absent (s new : String) (first : Char) (old : List Char)
    (h : first ∉ s.data) : stringsReplaceAll s (String.mk (first :: old)) new = s := by
  simp [stringsReplaceAll, replaceAllChars_absent first old new.data s.data h]

/-- Dropping trailing characters is `List.rdropWhile`. -/
theorem dropTrailing_eq_rdropWhile (p : Char → Bool) (cs : List Char) :
    dropTrailing p cs = cs.rdropWhile p := rfl

/-- The characters that `strings.TrimRight` keeps for the cutset of the newline. -/
theorem stringsTrimRight_data (s : String) :
    (stringsTrimRight s "\n").data = s.data.rdropWhile (fun c => c == '\n') := by
  have hp : (fun c : Char => "\n".data.contains c) = fun c => c == '\n' := by
    funext c
    simp only [List.contains, List.elem]
    cases c == '\n' <;> rfl
  simp only [stringsTrimRight, dropTrailing_eq_rdropWhile, hp]

/-- A right-trimmed string does not end with a newline. -/
theorem stringsTrimRight_last (s : String) :
    (stringsTrimRight s "\n").data.getLast? ≠ some '\n' := by
  rw [stringsTrimRight_data]
  intro h
  have hne : s.data.rdropWhile (fun c => c == '\n') ≠ [] := by
    intro e
    rw [e] at h
    simp at h
  have := List.rdropWhile_last_not (fun c => c == '\n') s.data hne
  rw [List.getLast?_eq_getLast _ hne] at h
  simp at h
  simp [h] at this

/-- A string that does not end with a newline is its own right-trimmed form. -/
theorem stringsTrimRight_self (s : String) (h : s.data.getLast? ≠ some '\n') :
    stringsTrimRight s "\n" = s := by
  apply String.ext
  rw [stringsTrimRight_data, List.rdropWhile_eq_self_iff]
  intro hl hp
  apply h
  rw [List.getLast?_eq_getLast _ hl]
  simpa using hp

/-- A newline at the end is trimmed away. -/
theorem stringsTrimRight_newline (s : String) :
    stringsTrimRight (s ++ "\n") "\n" = stringsTrimRight s "\n" := by
  apply String.ext
  rw [stringsTrimRight_data, stringsTrimRight_data]
  have : (s ++ "\n").data = s.data ++ ['\n'] := rfl
  rw [this, List.rdropWhile_concat_pos _ _ _ (by simp)]

/-- The four conditions of `isPlain`. -/
theorem isPlain_parts (s : String) (h : isPlain s = true) :
    s.data ≠ [] ∧ '*' ∉ s.data ∧ (∀ c ∈ s.data.head?, isSpace c = false) ∧
      (∀ c ∈ s.data.getLast?, isSpace c = false) := by
  simp only [isPlain, Bool.and_eq_true, Bool.not_eq_true', List.isEmpty_eq_false,
    List.contains_eq_any_beq] at h
  obtain ⟨⟨⟨h1, h2⟩, h3⟩, h4⟩ := h
  refine ⟨h1, ?_, ?_, ?_⟩
  · intro hm
    simp [List.any_eq_true] at h2
    exact h2 _ hm rfl
  · intro c hc
    simp only [Option.mem_def] at hc
    simp [hc] at h3
    exact h3
  · intro c hc
    simp only [Option.mem_def] at hc
    simp [hc] at h4
    exact h4

/-- Plain text is its own trimmed form. -/
theorem stringsTrimSpace_plain (s : String) (h : isPlain s = true) :
    stringsTrimSpace s = s := by
  obtain ⟨h1, _, h3, h4⟩ := isPlain_parts s h
  have hd : s.data.dropWhile isSpace = s.data := by
    cases hs : s.data with
    | nil => rfl
    | cons c cs =>
      have := h3 c (by simp [hs])
      simp [List.dropWhile, this]
  have ht : s.data.rdropWhile isSpace = s.data := by
    rw [List.rdropWhile_eq_self_iff]
    intro hl
    have := h4 (s.data.getLast hl) (by simp [List.getLast?_eq_getLast _ hl])
    simp [this]
  apply String.ext
  simp only [stringsTrimSpace, hd, dropTrailing_eq_rdropWhile, ht]

/-- The tail of the `paragraph` case turns plain text into that text and a
newline. -/
theorem paragraphText_plain (s : String) (h : isPlain s = true) :
    paragraphText s = s ++ "\n" := by
  obtain ⟨h1, h2, _, _⟩ := isPlain_parts s h
  have r1 : stringsReplaceAll s "****" "" = s :=
    stringsReplaceAll_absent s "" '*' ['*', '*', '*'] h2
  have r2 : stringsReplaceAll s "***" "*" = s :=
    stringsReplaceAll_absent s "*" '*' ['*', '*'] h2
  have hne : s ≠ "" := fun e => h1 (by rw [e])
  simp [paragraphText, r1, r2, stringsTrimSpace_plain s h, hne]

/-- Plain text is not empty and does not end with a newline. -/
theorem plain_last (s : String) (h : isPlain s = true) :
    s.data ≠ [] ∧ s.data.getLast? ≠ some '\n' := by
  obtain ⟨h1, _, _, h4⟩ := isPlain_parts s h
  refine ⟨h1, fun e => ?_⟩
  have := h4 '\n' (by simpa using e)
  simp [isSpace] at this

/-- A string put in front of a clean end keeps the end clean. -/
theorem endsClean_append (s t : String) (h : EndsClean t) : EndsClean (s ++ t) := by
  refine ⟨by simp [h.1], ?_⟩
  rw [String.data_append, List.getLast?_append_of_ne_nil _ h.1]
  exact h.2

/-- A right-trimmed string behind a clean end keeps the end clean. -/
theorem endsClean_trimmed (pre s : String) (hp : EndsClean pre) :
    EndsClean (pre ++ stringsTrimRight s "\n") := by
  by_cases he : (stringsTrimRight s "\n").data = []
  · have : pre ++ stringsTrimRight s "\n" = pre := by
      apply String.ext
      simp [he]
    rw [this]
    exact hp
  · exact endsClean_append _ _ ⟨he, stringsTrimRight_last s⟩

/-- The newline-join of strings with clean ends has a clean end. -/
theorem intercalate_endsClean (items : List String) (h : ∀ item ∈ items, EndsClean item)
    (hne : items ≠ []) : EndsClean (String.intercalate "\n" items) := by
  induction items with
  | nil => exact absurd rfl hne
  | cons item rest ih =>
    cases rest with
    | nil => exact h item (List.mem_cons_self _ _)
    | cons next more =>
      rw [intercalate_cons_cons]
      exact endsClean_append _ _
        (ih (fun i hi => h i (List.mem_cons_of_mem _ hi)) (List.cons_ne_nil _ _))

/-- The newline-join of strings with clean ends does not end with a newline. -/
theorem intercalate_last (items : List String) (h : ∀ item ∈ items, EndsClean item) :
    (String.intercalate "\n" items).data.getLast? ≠ some '\n' := by
  cases items with
  | nil => simp [String.intercalate]
  | cons item rest => exact (intercalate_endsClean _ h (List.cons_ne_nil _ _)).2

/-- The entries of an ordered list have clean ends. -/
theorem numberedItems_endsClean (items : List String) (first : Nat) :
    ∀ entry ∈ numberedItems first items, EndsClean entry := by
  intro entry he
  simp only [numberedItems, List.mem_map] at he
  obtain ⟨p, _, rfl⟩ := he
  exact endsClean_trimmed _ _ (endsClean_append _ _ ⟨by decide, by decide⟩)

/-- The conversion of a whole number inside the `int64` range is that number. -/
theorem float64ToInt_intCast (n : Int) (h1 : -(2 : Int) ^ 63 ≤ n) (h2 : n < (2 : Int) ^ 63) :
    float64ToInt (n : ℚ) = n := by
  have ht : Int.tdiv n 1 = n := Int.tdiv_one n
  simp only [float64ToInt, Rat.intCast_num, Rat.intCast_den, Nat.cast_one, ht]
  rw [if_pos ⟨h1, h2⟩]

/-- A count that is not negative and a result within the allocation limit
make `strings.Repeat` return the repeated string. -/
theorem stringsRepeat_fits (s : String) (count : Int) (h0 : 0 ≤ count)
    (hb : byteLength s * count.toNat ≤ maxAlloc) :
    stringsRepeat s count = some (String.join (List.replicate count.toNat s)) := by
  unfold stringsRepeat
  by_cases c0 : count = 0
  · subst c0
    rfl
  by_cases c1 : count = 1
  · subst c1
    simp [String.join]
  have hn : ¬ count < 0 := not_lt.mpr h0
  have hcast : (byteLength s : Int) * count = ((byteLength s * count.toNat : Nat) : Int) := by
    rw [Nat.cast_mul, Int.toNat_of_nonneg h0]
  have ho : ¬ (byteLength s : Int) * count > maxInt := by
    rw [hcast]
    have hm : ((byteLength s * count.toNat : Nat) : Int) ≤ (maxAlloc : Nat) := by
      exact_mod_cast hb
    have : ((maxAlloc : Nat) : Int) ≤ maxInt := by decide
    omega
  have ha : ¬ byteLength s * count.toNat > maxAlloc := not_lt.mpr hb
  simp only [c0, c1, hn, ho, ha, if_false]

/-- A negative count makes `strings.Repeat` panic. -/
theorem stringsRepeat_neg (s : String) (count : Int) (h : count < 0) :
    stringsRepeat s count = none := by
  unfold stringsRepeat
  have c0 : count ≠ 0 := by omega
  have c1 : count ≠ 1 := by omega
  simp only [c0, c1, h, if_false, if_true]

/-- The call `strings.Repeat("#", count)` of the `heading` case within the
allocation limit. -/
theorem stringsRepeat_hash (count : Int) (h0 : 0 ≤ count) (hb : count ≤ maxAlloc) :
    stringsRepeat "#" count = some (String.join (List.replicate count.toNat "#")) := by
  apply stringsRepeat_fits _ _ h0
  have h1 : byteLength "#" = 1 := by decide
  rw [h1, Nat.one_mul]
  omega

/-- The call `strings.Repeat("  ", count)` of the `listItem` case within the
allocation limit. -/
theorem stringsRepeat_indent (count : Int) (h0 : 0 ≤ count) (hb : 2 * count ≤ maxAlloc) :
    stringsRepeat "  " count = some (String.join (List.replicate count.toNat "  ")) := by
  apply stringsRepeat_fits _ _ h0
  have h2 : byteLength "  " = 2 := by decide
  rw [h2]
  omega

/-! ### Loops and lists of children -/

/-- An unrecognised mark leaves the text as it is. -/
theorem applyMark_unrecognized (s : String) (mark : ADFMark)
    (h : recognizedMark mark = false) : applyMark s mark = s := by
  simp [recognizedMark] at h
  simp [applyMark, h]

/-- Dropping the unrecognised marks does not change the marks loop. -/
theorem foldl_applyMark_filter (marks : List ADFMark) (s : String) :
    (marks.filter recognizedMark).foldl applyMark s = marks.foldl applyMark s := by
  induction marks generalizing s with
  | nil => rfl
  | cons mark rest ih =>
    cases h : recognizedMark mark
    · simp [List.filter, h, ih, applyMark_unrecognized s mark h]
    · simp [List.filter, h, ih]

/-- The loop of the `bulletList` case appends the items joined by newlines,
provided the index and the remaining items add up to `len`. -/
theorem bulletLoop_eq (len : Int) (items : List String) (i : Int) (content : String)
    (h : i + items.length = len) :
    bulletLoop len i items content = content ++ String.intercalate "\n" items := by
  induction items generalizing i content with
  | nil => simp [bulletLoop, String.intercalate]
  | cons item rest ih =>
    cases rest with
    | nil =>
      have hi : ¬ i < len - 1 := by simp at h; omega
      simp [bulletLoop, hi, intercalate_singleton]
    | cons next more =>
      have hi : i < len - 1 := by simp at h; omega
      rw [bulletLoop]
      simp only [hi, if_true]
      rw [ih (i + 1) _ (by simp at h ⊢; omega), intercalate_cons_cons]
      simp [String.append_assoc]

/-- The loop of the `orderedList` case appends the numbered items joined by
newlines, provided the index and the remaining items add up to `len`. -/
theorem orderedLoop_eq (len : Int) (items : List String) (k : Nat) (content : String)
    (h : (k : Int) + items.length = len) :
    orderedLoop len k items content =
      content ++ String.intercalate "\n" (numberedItems k items) := by
  induction items generalizing k content with
  | nil => simp [orderedLoop, numberedItems, String.intercalate]
  | cons item rest ih =>
    have hk : ((k : Int) + 1).toNat = k + 1 := by omega
    cases rest with
    | nil =>
      have hi : ¬ (k : Int) < len - 1 := by simp at h; omega
      simp [orderedLoop, hi, numberedItems, intercalate_singleton, hk, List.enumFrom]
    | cons next more =>
      have hi : (k : Int) < len - 1 := by simp at h; omega
      rw [orderedLoop]
      simp only [hi, if_true]
      have := ih (k + 1) (content ++ (sprintDecimal ((k : Int) + 1).toNat ++ ". " ++
        stringsTrimRight item "\n") ++ "\n") (by simp at h ⊢; omega)
      simp only [Nat.cast_add, Nat.cast_one] at this
      rw [this]
      simp only [numberedItems, List.enumFrom, List.map]
      rw [intercalate_cons_cons, hk]
      simp [String.append_assoc]

/-- The list `renderChildren` returns holds, child by child, the rendering of
that child. -/
theorem renderChildren_some_iff (nodes : List ADFNode) (depth maxDepth listDepth : Int)
    (items : List String) :
    renderChildren nodes depth maxDepth listDepth = some items ↔
      List.Forall₂
        (fun child item =>
          convertNodeToMarkdownWithLimit child depth maxDepth listDepth = some item)
        nodes items := by
  induction nodes generalizing items with
  | nil =>
    rw [renderChildren]
    constructor
    · intro h
      cases h
      exact List.Forall₂.nil
    · intro h
      cases h
      rfl
  | cons child rest ih =>
    rw [renderChildren]
    constructor
    · intro h
      cases hc : convertNodeToMarkdownWithLimit child depth maxDepth listDepth with
      | none => simp [hc] at h
      | some item =>
        cases hr : renderChildren rest depth maxDepth listDepth with
        | none => simp [hc, hr] at h
        | some others =>
          simp [hc, hr] at h
          subst h
          exact List.Forall₂.cons hc ((ih others).mp hr)
    · intro h
      cases h with
      | cons h1 h2 =>
        rw [h1, (ih _).mpr h2]

/-- There are as many renderings as children. -/
theorem renderChildren_length (nodes : List ADFNode) (depth maxDepth listDepth : Int)
    (items : List String) (h : renderChildren nodes depth maxDepth listDepth = some items) :
    items.length = nodes.length :=
  ((renderChildren_some_iff nodes depth maxDepth listDepth items).mp h).length_eq.symm

/-- Every rendering in the list is the rendering of one of the children. -/
theorem renderChildren_mem (nodes : List ADFNode) (depth maxDepth listDepth : Int)
    (items : List String) (h : renderChildren nodes depth maxDepth listDepth = some items) :
    ∀ item ∈ items, ∃ child ∈ nodes,
      convertNodeToMarkdownWithLimit child depth maxDepth listDepth = some item := by
  have hf := (renderChildren_some_iff _ _ _ _ _).mp h
  clear h
  induction hf with
  | nil => intro item hi; simp at hi
  | cons hr _ ih =>
    intro item hi
    rcases List.mem_cons.mp hi with e | hm
    · exact ⟨_, List.mem_cons_self _ _, e ▸ hr⟩
    · obtain ⟨child, hc, hcr⟩ := ih item hm
      exact ⟨child, List.mem_cons_of_mem _ hc, hcr⟩

/-- The renderings of a list of nodes built from texts, when each node renders
to a string built from its text. -/
theorem renderChildren_map_some (f : String → ADFNode) (g : String → String)
    (texts : List String) (depth maxDepth listDepth : Int)
    (h : ∀ t ∈ texts,
      convertNodeToMarkdownWithLimit (f t) depth maxDepth listDepth = some (g t)) :
    renderChildren (texts.map f) depth maxDepth listDepth = some (texts.map g) := by
  induction texts with
  | nil => rfl
  | cons t rest ih =>
    rw [List.map_cons, renderChildren, h t (List.mem_cons_self _ _),
      ih (fun u hu => h u (List.mem_cons_of_mem _ hu))]
    rfl

/-- When every child renders to a string, so does the list of children. -/
theorem renderChildren_defined (nodes : List ADFNode) (depth maxDepth listDepth : Int)
    (h : ∀ child ∈ nodes, ∃ s,
      convertNodeToMarkdownWithLimit child depth maxDepth listDepth = some s) :
    ∃ items, renderChildren nodes depth maxDepth listDepth = some items := by
  induction nodes with
  | nil => exact ⟨[], by rw [renderChildren]⟩
  | cons child rest ih =>
    obtain ⟨s, hs⟩ := h child (List.mem_cons_self _ _)
    obtain ⟨items, hi⟩ := ih (fun c hc => h c (List.mem_cons_of_mem _ hc))
    exact ⟨s :: items, by rw [renderChildren, hs, hi]⟩

/-- Replacing every child by one that renders alike keeps the renderings. -/
theorem renderChildren_map_congr (f : ADFNode → ADFNode) (nodes : List ADFNode)
    (depth maxDepth listDepth : Int)
    (h : ∀ node, convertNodeToMarkdownWithLimit (f node) depth maxDepth listDepth =
      convertNodeToMarkdownWithLimit node depth maxDepth listDepth) :
    renderChildren (nodes.map f) depth maxDepth listDepth =
      renderChildren nodes depth maxDepth listDepth := by
  induction nodes with
  | nil => rfl
  | cons child rest ih =>
    rw [List.map_cons, renderChildren, renderChildren, h child, ih]

/-! ### The cases of the switch -/

/-- The level computed by the `heading` case is the level of the claim. -/
theorem inline_level_eq (node : ADFNode) :
    (match node.attrs with
      | none => (1 : Int)
      | some _ =>
        match assertFloat64 (mapIndex node.attrs "level") with
        | some l => float64ToInt l
        | none => 1) = headingLevel node := by
  unfold headingLevel
  cases ha : node.attrs with
  | none => simp [mapIndex]
  | some bindings =>
    simp only [mapIndex]
    cases hl : bindings.lookup "level" with
    | none => simp [assertFloat64]
    | some v => cases v <;> simp [assertFloat64]

/-- The switch at a heading. -/
theorem renderSwitch_heading (node : ADFNode) (listDepth : Int)
    (kids : Int → Option (List String)) (ht : node.type = "heading") :
    renderSwitch node listDepth kids =
      (kids listDepth).bind (fun items =>
        (stringsRepeat "#" (headingLevel node)).map (fun hashes =>
          hashes ++ " " ++ writeAll items ++ "\n")) := by
  simp only [renderSwitch, ht]
  simp only [inline_level_eq]
  simp

/-- A node type without a loop over the content ignores the children. -/
theorem renderSwitch_leaf (node : ADFNode) (listDepth : Int)
    (kids kids' : Int → Option (List String)) (h : descends node.type = false) :
    renderSwitch node listDepth kids = renderSwitch node listDepth kids' := by
  have h' : node.type = "text" ∨ node.type = "hardBreak" ∨ node.type = "mention" ∨
      node.type = "link" ∨ node.type = "image" ∨ node.type = "emoji" ∨
      node.type = "inlineCard" := by
    simp [descends] at h
    tauto
  rcases h' with h | h | h | h | h | h | h <;> simp [renderSwitch, h]

/-- The switch returns a string when the children do, the list depth is not
negative, the indent fits the allocation limit, and the level of a heading
is not negative and not above that limit. -/
theorem renderSwitch_defined (node : ADFNode) (listDepth : Int)
    (kids : Int → Option (List String))
    (hk1 : ∃ items, kids listDepth = some items)
    (hk2 : ∃ items, kids (listDepth + 1) = some items)
    (hlevel : node.type = "heading" →
      0 ≤ headingLevel node ∧ headingLevel node ≤ maxAlloc)
    (hl : 0 ≤ listDepth) (hb : 2 * listDepth ≤ maxAlloc) :
    ∃ s, renderSwitch node listDepth kids = some s := by
  obtain ⟨items, h1⟩ := hk1
  obtain ⟨items', h2⟩ := hk2
  rw [← Option.isSome_iff_exists]
  by_cases t1 : node.type = "text"
  · simp [renderSwitch, t1]
  by_cases t2 : node.type = "paragraph"
  · simp [renderSwitch, t2, h1]
  by_cases t3 : node.type = "heading"
  · rw [renderSwitch_heading _ _ _ t3, h1,
      stringsRepeat_hash _ (hlevel t3).1 (hlevel t3).2]
    simp only [Option.some_bind, Option.map_some', Option.isSome_some]
  by_cases t4 : node.type = "codeBlock"
  · simp [renderSwitch, t4, h1]
  by_cases t5 : node.type = "bulletList"
  · simp [renderSwitch, t5, h2]
  by_cases t6 : node.type = "listItem"
  · simp [renderSwitch, t6, h1, stringsRepeat_indent _ hl hb]
  by_cases t7 : node.type = "orderedList"
  · simp [renderSwitch, t7, h2]
  by_cases t8 : node.type = "hardBreak"
  · simp [renderSwitch, t8]
  by_cases t9 : node.type = "mention"
  · simp only [renderSwitch, t9]
    simp only [String.reduceEq, if_false, if_true]
    (repeat' split) <;> rfl
  by_cases t10 : node.type = "link"
  · simp only [renderSwitch, t10]
    simp only [String.reduceEq, if_false, if_true]
    (repeat' split) <;> rfl
  by_cases t11 : node.type = "image"
  · simp only [renderSwitch, t11]
    simp only [String.reduceEq, if_false, if_true]
    (repeat' split) <;> rfl
  by_cases t12 : node.type = "emoji"
  · simp only [renderSwitch, t12]
    simp only [String.reduceEq, if_false, if_true]
    (repeat' split) <;> rfl
  by_cases t13 : node.type = "inlineCard"
  · simp only [renderSwitch, t13]
    simp only [String.reduceEq, if_false, if_true]
    (repeat' split) <;> rfl
  simp [renderSwitch, t1, t2, t3, t4, t5, t6, t7, t8, t9, t10, t11, t12, t13, h1]

/-- The switch reads the content of its node only through its length. -/
theorem renderSwitch_congr (node node' : ADFNode) (listDepth : Int)
    (kids : Int → Option (List String))
    (h1 : node'.type = node.type) (h2 : node'.text = node.text)
    (h3 : node'.marks = node.marks) (h4 : node'.attrs = node.attrs)
    (h5 : node'.content.length = node.content.length) :
    renderSwitch node' listDepth kids = renderSwitch node listDepth kids := by
  simp only [renderSwitch, h1, h2, h3, h4, h5]

/-- The `text` case within the ceiling. -/
theorem convert_text (node : ADFNode) (depth maxDepth listDepth : Int)
    (hd : depth ≤ maxDepth) (ht : node.type = "text") :
    convertNodeToMarkdownWithLimit node depth maxDepth listDepth =
      some (node.marks.foldl applyMark node.text) := by
  rw [convert_within node depth maxDepth listDepth hd]
  simp [renderSwitch, ht]

/-- The `paragraph` case within the ceiling. -/
theorem convert_paragraph (node : ADFNode) (depth maxDepth listDepth : Int)
    (hd : depth ≤ maxDepth) (ht : node.type = "paragraph") :
    convertNodeToMarkdownWithLimit node depth maxDepth listDepth =
      (renderChildren node.content (depth + 1) maxDepth listDepth).map
        (fun items => paragraphText (writeAll items)) := by
  rw [convert_within node depth maxDepth listDepth hd]
  simp [renderSwitch, ht]

/-- The `listItem` case within the ceiling at a list depth that is not
negative and whose indent fits the allocation limit. -/
theorem convert_listItem (node : ADFNode) (depth maxDepth listDepth : Int)
    (hd : depth ≤ maxDepth) (ht : node.type = "listItem") (hl : 0 ≤ listDepth)
    (hb : 2 * listDepth ≤ maxAlloc) :
    convertNodeToMarkdownWithLimit node depth maxDepth listDepth =
      (renderChildren node.content (depth + 1) maxDepth listDepth).map
        (fun items =>
          String.join (List.replicate listDepth.toNat "  ") ++ bulletPrefix ++
            stringsTrimRight (writeAll items) "\n") := by
  rw [convert_within node depth maxDepth listDepth hd]
  cases hk : renderChildren node.content (depth + 1) maxDepth listDepth <;>
    simp [renderSwitch, ht, stringsRepeat_indent _ hl hb, hk]

/-- The `bulletList` case within the ceiling. -/
theorem convert_bulletList (node : ADFNode) (depth maxDepth listDepth : Int)
    (hd : depth ≤ maxDepth) (ht : node.type = "bulletList") :
    convertNodeToMarkdownWithLimit node depth maxDepth listDepth =
      (renderChildren node.content (depth + 1) maxDepth (listDepth + 1)).map
        (fun items => String.intercalate "\n" items) := by
  rw [convert_within node depth maxDepth listDepth hd]
  cases hk : renderChildren node.content (depth + 1) maxDepth (listDepth + 1) with
  | none => simp [renderSwitch, ht, hk]
  | some items =>
    have hlen := renderChildren_length _ _ _ _ _ hk
    simp [renderSwitch, ht, hk]
    rw [bulletLoop_eq _ _ _ _ (by simp [hlen])]
    simp

/-- The `orderedList` case within the ceiling. -/
theorem convert_orderedList (node : ADFNode) (depth maxDepth listDepth : Int)
    (hd : depth ≤ maxDepth) (ht : node.type = "orderedList") :
    convertNodeToMarkdownWithLimit node depth maxDepth listDepth =
      (renderChildren node.content (depth + 1) maxDepth (listDepth + 1)).map
        (fun items => String.intercalate "\n" (numberedItems 0 items)) := by
  rw [convert_within node depth maxDepth listDepth hd]
  cases hk : renderChildren node.content (depth + 1) maxDepth (listDepth + 1) with
  | none => simp [renderSwitch, ht, hk]
  | some items =>
    have hlen := renderChildren_length _ _ _ _ _ hk
    simp [renderSwitch, ht, hk]
    have := orderedLoop_eq (node.content.length) items 0 "" (by simp [hlen])
    simp at this
    rw [this]

/-- A paragraph of plain text renders as the text and a newline. -/
theorem convert_plainParagraph (text : String) (h : isPlain text = true)
    (depth maxDepth listDepth : Int) (hd : depth + 1 ≤ maxDepth) :
    convertNodeToMarkdownWithLimit (plainParagraph text) depth maxDepth listDepth =
      some (text ++ "\n") := by
  rw [convert_paragraph (plainParagraph text) _ _ _ (by omega) rfl]
  have hc : (plainParagraph text).content = [textNode text] := rfl
  rw [hc, renderChildren, convert_text (textNode text) _ _ _ hd rfl, renderChildren]
  simp [textNode, ADFNode.marks, ADFNode.text, writeAll, paragraphText_plain text h]

/-- An item of plain text renders as the indent, the bullet and the text. -/
theorem convert_plainItem (text : String) (h : isPlain text = true)
    (depth maxDepth listDepth : Int) (hd : depth + 2 ≤ maxDepth) (hl : 0 ≤ listDepth)
    (hb : 2 * listDepth ≤ maxAlloc) :
    convertNodeToMarkdownWithLimit (plainItem text) depth maxDepth listDepth =
      some (String.join (List.replicate listDepth.toNat "  ") ++ bulletPrefix ++ text) := by
  rw [convert_listItem (plainItem text) _ _ _ (by omega) rfl hl hb]
  have hc : (plainItem text).content = [plainParagraph text] := rfl
  rw [hc, renderChildren, convert_plainParagraph text h _ _ _ (by omega), renderChildren]
  simp [writeAll, stringsTrimRight_newline,
    stringsTrimRight_self text (plain_last text h).2]

/-- Whatever a listItem renders to is not empty and does not end with a
newline. -/
theorem listItem_endsClean (node : ADFNode) (depth maxDepth listDepth : Int)
    (item : String) (ht : node.type = "listItem")
    (h : convertNodeToMarkdownWithLimit node depth maxDepth listDepth = some item) :
    EndsClean item := by
  rw [convert_unfold] at h
  split at h
  · cases h
    exact ⟨by decide, by decide⟩
  · cases hk : renderChildren node.content (depth + 1) maxDepth listDepth with
    | none => simp [renderSwitch, ht, hk] at h
    | some items =>
      cases hr : stringsRepeat "  " listDepth with
      | none => simp [renderSwitch, ht, hk, hr] at h
      | some indent =>
        simp [renderSwitch, ht, hk, hr] at h
        subst h
        exact endsClean_trimmed _ _ (endsClean_append _ _ ⟨by decide, by decide⟩)

/-- No list whose children are all listItems renders to a string that ends
with a newline. -/
theorem list_no_trailing_newline (node : ADFNode) (depth maxDepth listDepth : Int)
    (s : String) (ht : node.type = "bulletList" ∨ node.type = "orderedList")
    (hc : ∀ child ∈ node.content, child.type = "listItem")
    (h : convertNodeToMarkdownWithLimit node depth maxDepth listDepth = some s) :
    s.data.getLast? ≠ some '\n' := by
  by_cases hd : depth > maxDepth
  · rw [convert_unfold, if_pos hd] at h
    cases h
    decide
  · have hd' : depth ≤ maxDepth := by omega
    rcases ht with ht | ht
    · rw [convert_bulletList node depth maxDepth listDepth hd' ht] at h
      cases hk : renderChildren node.content (depth + 1) maxDepth (listDepth + 1) with
      | none => simp [hk] at h
      | some items =>
        simp [hk] at h
        subst h
        apply intercalate_last
        intro item hi
        obtain ⟨child, hcm, hr⟩ := renderChildren_mem _ _ _ _ _ hk item hi
        exact listItem_endsClean child _ _ _ item (hc child hcm) hr
    · rw [convert_orderedList node depth maxDepth listDepth hd' ht] at h
      cases hk : renderChildren node.content (depth + 1) maxDepth (listDepth + 1) with
      | none => simp [hk] at h
      | some items =>
        simp [hk] at h
        subst h
        exact intercalate_last _ (numberedItems_endsClean items 0)

/-- The inner list of the nested tree, met at depth 2 and list depth 1. -/
theorem convert_innerList (inner : List String) (h : ∀ t ∈ inner, isPlain t = true) :
    convertNodeToMarkdownWithLimit (containerNode "bulletList" (inner.map plainItem))
        2 10 1 =
      some (String.intercalate "\n" (inner.map (fun t => "    " ++ bulletPrefix ++ t))) := by
  rw [convert_bulletList (containerNode "bulletList" (inner.map plainItem)) 2 10 1
    (by decide) rfl]
  have hc : (containerNode "bulletList" (inner.map plainItem)).content =
      inner.map plainItem := rfl
  rw [hc, renderChildren_map_some plainItem (fun t => "    " ++ bulletPrefix ++ t) inner
    (2 + 1) 10 (1 + 1)
    (fun t ht => convert_plainItem t (h t ht) (2 + 1) 10 (1 + 1) (by decide) (by decide)
      (by decide))]
  rfl

/-- The rendering of the nested tree. -/
theorem convert_nestedBulletList (outer : String) (inner : List String)
    (ho : isPlain outer = true) (hi : ∀ t ∈ inner, isPlain t = true) :
    convertNodeToMarkdown (nestedBulletList outer inner) =
      some ("  " ++ "‚Ä¢" ++ " " ++ outer ++
        String.join (inner.map (fun t => "\n" ++ "    " ++ "‚Ä¢" ++ " " ++ t))) := by
  have hitem : convertNodeToMarkdownWithLimit
      (containerNode "listItem"
        [plainParagraph outer, containerNode "bulletList" (inner.map plainItem)])
      1 10 1 =
      some ("  " ++ bulletPrefix ++ outer ++
        String.join (inner.map (fun t => "\n" ++ ("    " ++ bulletPrefix ++ t)))) := by
    rw [convert_listItem (containerNode "listItem"
      [plainParagraph outer, containerNode "bulletList" (inner.map plainItem)]) 1 10 1
      (by decide) rfl (by decide) (by decide)]
    have hc : (containerNode "listItem"
        [plainParagraph outer, containerNode "bulletList" (inner.map plainItem)]).content =
        [plainParagraph outer, containerNode "bulletList" (inner.map plainItem)] := rfl
    rw [hc, renderChildren, convert_plainParagraph outer ho (1 + 1) 10 1 (by decide),
      renderChildren]
    have h2 : ((1 : Int) + 1) = 2 := by decide
    rw [h2, convert_innerList inner hi, renderChildren]
    simp only [Option.map_some', writeAll, List.foldl_cons, List.foldl_nil,
      String.empty_append]
    have hind : String.join (List.replicate (1 : Int).toNat "  ") = "  " := by decide
    rw [hind]
    cases inner with
    | nil =>
      have : outer ++ "\n" ++ String.intercalate "\n" ([] : List String) = outer ++ "\n" := by
        simp [String.intercalate]
      simp only [List.map_nil, this, stringsTrimRight_newline,
        stringsTrimRight_self outer (plain_last outer ho).2]
      simp [String.join]
    | cons t rest =>
      have hclean : EndsClean (String.intercalate "\n"
          ((t :: rest).map (fun t => "    " ++ bulletPrefix ++ t))) := by
        apply intercalate_endsClean _ _ (by simp)
        intro item hm
        obtain ⟨u, hu, rfl⟩ := List.mem_map.mp hm
        exact endsClean_append _ _ (plain_last u (hi u hu))
      rw [stringsTrimRight_self _ (endsClean_append _ _ hclean).2]
      rw [String.append_assoc outer, sep_intercalate _ (by simp), List.map_map]
      simp [String.append_assoc, Function.comp_def]
  rw [convertNodeToMarkdown, convert_bulletList (nestedBulletList outer inner) 0 10 0
    (by decide) rfl]
  have hc : (nestedBulletList outer inner).content =
      [containerNode "listItem"
        [plainParagraph outer, containerNode "bulletList" (inner.map plainItem)]] := rfl
  have h1 : ((0 : Int) + 1) = 1 := by decide
  rw [hc, h1, renderChildren, hitem, renderChildren]
  have hp : bulletPrefix = "‚Ä¢" ++ " " := by decide
  simp only [Option.map_some', intercalate_singleton, hp, String.append_assoc]

/-! ### Depth of the calls, results without panic, pruning -/

/-- The calls on a list of children stay between the depth of the children
and the ceiling plus one. -/
theorem childCalls_bound (nodes : List ADFNode) (depth maxDepth : Int)
    (hd : depth ≤ maxDepth + 1)
    (ih : ∀ child ∈ nodes, ∀ d ∈ recursiveCalls child depth maxDepth,
      depth < d ∧ d ≤ maxDepth + 1) :
    ∀ d ∈ childCalls nodes depth maxDepth, depth ≤ d ∧ d ≤ maxDepth + 1 := by
  induction nodes with
  | nil => intro d h; simp [childCalls] at h
  | cons child rest ihr =>
    intro d h
    rw [childCalls] at h
    rcases List.mem_cons.mp h with h | h
    · subst h; exact ⟨le_refl _, hd⟩
    · rcases List.mem_append.mp h with h | h
      · have := ih child (List.mem_cons_self _ _) d h
        exact ⟨le_of_lt this.1, this.2⟩
      · exact ihr (fun c hc => ih c (List.mem_cons_of_mem _ hc)) d h

/-- Every call below a call at `depth` is deeper than `depth` and at most at
the ceiling plus one. -/
theorem recursiveCalls_bound (node : ADFNode) :
    ∀ depth maxDepth : Int, ∀ d ∈ recursiveCalls node depth maxDepth,
      depth < d ∧ d ≤ maxDepth + 1 := by
  induction node using node_induction with
  | step type content text marks attrs ih =>
    intro depth maxDepth d h
    rw [recursiveCalls] at h
    split at h
    · simp at h
    · split at h
      · rename_i hle _
        have := childCalls_bound content (depth + 1) maxDepth (by omega)
          (fun c hc => ih c hc (depth + 1) maxDepth) d h
        omega
      · simp at h

/-- The parts of `levelsOk` at a node: its own level and its children. -/
theorem levelsOk_children (type : String) (content : List ADFNode) (text : String)
    (marks : List ADFMark) (attrs : Option (List (String × AttrValue)))
    (h : levelsOk (ADFNode.mk type content text marks attrs) = true) :
    (type = "heading" →
        0 ≤ headingLevel (ADFNode.mk type content text marks attrs) ∧
          headingLevel (ADFNode.mk type content text marks attrs) ≤ maxAlloc) ∧
      ∀ child ∈ content, levelsOk child = true := by
  rw [levelsOk] at h
  simp only [Bool.and_eq_true, Bool.or_eq_true, decide_eq_true_eq, bne_iff_ne] at h
  refine ⟨fun ht => ?_, ?_⟩
  · rcases h.1 with h' | h'
    · exact absurd ht h'
    · exact h'
  · have h2 := h.2
    clear h
    induction content with
    | nil => intro c hc; simp at hc
    | cons c rest ih =>
      rw [allLevelsOk] at h2
      simp only [Bool.and_eq_true] at h2
      intro c' hc'
      rcases List.mem_cons.mp hc' with h | h
      · exact h ▸ h2.1
      · exact ih h2.2 c' h

/-- The renderer returns a string when every heading level lies between 0
and the allocation limit, the list depth is not negative, and the indent of
the deepest item the tree can hold fits the allocation limit. -/
theorem convert_defined (node : ADFNode) :
    levelsOk node = true → ∀ depth maxDepth listDepth : Int, 0 ≤ listDepth →
      2 * (listDepth + height node) ≤ maxAlloc →
      ∃ s, convertNodeToMarkdownWithLimit node depth maxDepth listDepth = some s := by
  induction node using node_induction with
  | step type content text marks attrs ih =>
    intro hok depth maxDepth listDepth hl hb
    have hc := levelsOk_children type content text marks attrs hok
    have hh := height_child type content text marks attrs
    rw [convert_unfold]
    split
    · exact ⟨_, rfl⟩
    · refine renderSwitch_defined _ _ _ ?_ ?_ hc.1 hl (by omega)
      · exact renderChildren_defined _ _ _ _
          (fun c hcm => ih c hcm (hc.2 c hcm) _ _ _ hl (by have := hh c hcm; omega))
      · exact renderChildren_defined _ _ _ _
          (fun c hcm => ih c hcm (hc.2 c hcm) _ _ _ (by omega)
            (by have := hh c hcm; omega))

/-- What lies more than `levels` levels below a node does not matter when
`depth + levels` exceeds the ceiling. -/
theorem convert_prune (levels : Nat) :
    ∀ (node : ADFNode) (depth maxDepth listDepth : Int), maxDepth < depth + levels →
      convertNodeToMarkdownWithLimit (prune levels node) depth maxDepth listDepth =
        convertNodeToMarkdownWithLimit node depth maxDepth listDepth := by
  induction levels with
  | zero =>
    intro node depth maxDepth listDepth h
    have hd : depth > maxDepth := by simpa using h
    rw [convert_unfold, convert_unfold, if_pos hd, if_pos hd]
  | succ levels ih =>
    intro node depth maxDepth listDepth h
    by_cases hd : depth > maxDepth
    · rw [convert_unfold, convert_unfold, if_pos hd, if_pos hd]
    · rw [convert_unfold, convert_unfold, if_neg hd, if_neg hd]
      have hk : (fun l => renderChildren (prune (levels + 1) node).content (depth + 1)
          maxDepth l) = fun l => renderChildren node.content (depth + 1) maxDepth l := by
        funext l
        exact renderChildren_map_congr (prune levels) node.content (depth + 1) maxDepth l
          (fun n => ih n (depth + 1) maxDepth l (by push_cast at h; omega))
      rw [hk]
      exact renderSwitch_congr node (prune (levels + 1) node) listDepth _ rfl rfl rfl rfl
        (by simp [prune, ADFNode.content])

/-! ### Code blocks, unknown types, marks, chains and the entry point -/

/-- The language computed by the `codeBlock` case is the language of the claim. -/
theorem inline_language_eq (node : ADFNode) :
    (match node.attrs with
      | none => ""
      | some _ =>
        match assertString (mapIndex node.attrs "language") with
        | some lang => lang
        | none => "") = codeLanguage node := by
  unfold codeLanguage
  cases ha : node.attrs with
  | none => simp [mapIndex]
  | some bindings =>
    simp only [mapIndex]
    cases hl : bindings.lookup "language" with
    | none => simp [assertString]
    | some v => cases v <;> simp [assertString]

/-- The `codeBlock` case within the ceiling. -/
theorem convert_codeBlock (node : ADFNode) (depth maxDepth listDepth : Int)
    (hd : depth ≤ maxDepth) (ht : node.type = "codeBlock") :
    convertNodeToMarkdownWithLimit node depth maxDepth listDepth =
      (renderChildren node.content (depth + 1) maxDepth listDepth).map
        (fun items => "```" ++ codeLanguage node ++ "\n" ++ writeAll items ++ "\n```\n") := by
  rw [convert_within node depth maxDepth listDepth hd]
  simp only [renderSwitch, ht]
  simp only [inline_language_eq]
  simp

/-- The `default` case within the ceiling. -/
theorem convert_unknown (node : ADFNode) (depth maxDepth listDepth : Int)
    (hd : depth ≤ maxDepth) (ht : node.type ∉ knownTypes) :
    convertNodeToMarkdownWithLimit node depth maxDepth listDepth =
      (renderChildren node.content (depth + 1) maxDepth listDepth).map writeAll := by
  rw [convert_within node depth maxDepth listDepth hd]
  simp only [knownTypes, List.mem_cons, List.mem_singleton, not_or, List.mem_nil_iff,
    not_false_eq_true, and_true] at ht
  obtain ⟨t1, t2, t3, t4, t5, t6, t7, t8, t9, t10, t11, t12, t13⟩ := ht
  simp [renderSwitch, t1, t2, t3, t4, t5, t6, t7, t8, t9, t10, t11, t12, t13]

/-- A `strong` or `em` mark puts its asterisks on both sides. -/
theorem applyMark_asterisks (s : String) (mark : ADFMark)
    (h : mark.type = "strong" ∨ mark.type = "em") :
    applyMark s mark =
      String.mk (List.replicate (asterisks [mark]) '*') ++ s ++
        String.mk (List.replicate (asterisks [mark]) '*') := by
  rcases h with h | h
  · simp only [applyMark, asterisks, h]
    rfl
  · have hne : mark.type ≠ "strong" := by rw [h]; decide
    simp only [applyMark, asterisks, h]
    rfl

/-- Marks that are all `strong` or `em` put the sum of their asterisks on both
sides. -/
theorem foldl_applyMark_asterisks (marks : List ADFMark) (s : String)
    (h : ∀ mark ∈ marks, mark.type = "strong" ∨ mark.type = "em") :
    marks.foldl applyMark s =
      String.mk (List.replicate (asterisks marks) '*') ++ s ++
        String.mk (List.replicate (asterisks marks) '*') := by
  induction marks generalizing s with
  | nil =>
    apply String.ext
    simp [asterisks]
  | cons mark rest ih =>
    rw [List.foldl_cons, ih _ (fun m hm => h m (List.mem_cons_of_mem _ hm)),
      applyMark_asterisks s mark (h mark (List.mem_cons_self _ _))]
    apply String.ext
    have e : asterisks (mark :: rest) = asterisks rest + asterisks [mark] := by
      simp [asterisks, Nat.add_comm]
    have hc : List.replicate (asterisks [mark]) '*' ++ List.replicate (asterisks rest) '*' =
        List.replicate (asterisks rest) '*' ++ List.replicate (asterisks [mark]) '*' := by
      rw [← List.replicate_add, ← List.replicate_add, Nat.add_comm]
    rw [e]
    simp only [String.data_append, List.replicate_add, List.append_assoc, hc]

/-- Reordering the marks keeps the number of asterisks. -/
theorem asterisks_perm (marks marks' : List ADFMark) (h : marks.Perm marks') :
    asterisks marks = asterisks marks' := by
  induction h with
  | nil => rfl
  | cons mark _ ih => simp only [asterisks, ih]
  | swap a b rest => simp only [asterisks]; omega
  | trans _ _ ih1 ih2 => exact ih1.trans ih2

/-- The renderings of a single child. -/
theorem renderChildren_singleton (child : ADFNode) (depth maxDepth listDepth : Int) :
    renderChildren [child] depth maxDepth listDepth =
      (convertNodeToMarkdownWithLimit child depth maxDepth listDepth).map (fun s => [s]) := by
  rw [renderChildren]
  cases convertNodeToMarkdownWithLimit child depth maxDepth listDepth with
  | none => rfl
  | some s => rw [renderChildren]; rfl

/-- A chain met `levels` levels above depth 11 under the ceiling 10 renders as
the wrappers of its first `levels` shells around the placeholder. -/
theorem convert_nest (levels : Nat) :
    ∀ (shells : List ADFNode) (inner : ADFNode) (depth listDepth : Int),
      depth + levels = 11 → levels ≤ shells.length →
      convertNodeToMarkdownWithLimit (nest shells inner) depth 10 listDepth =
        wrapAround "[...]" (shells.take levels) listDepth := by
  induction levels with
  | zero =>
    intro shells inner depth listDepth hd _
    have h : depth > 10 := by simp at hd; omega
    rw [convert_unfold, if_pos h, List.take_zero, wrapAround]
  | succ levels ih =>
    intro shells inner depth listDepth hd hlen
    cases shells with
    | nil => simp at hlen
    | cons shell rest =>
      have hle : depth ≤ 10 := by push_cast at hd; omega
      rw [nest, convert_within _ depth 10 listDepth hle, List.take_succ_cons, wrapAround]
      have hk : (fun l => renderChildren (withChild shell (nest rest inner)).content
            (depth + 1) 10 l) =
          fun l => (wrapAround "[...]" (rest.take levels) l).map (fun s => [s]) := by
        funext l
        have hc : (withChild shell (nest rest inner)).content = [nest rest inner] := rfl
        rw [hc, renderChildren_singleton,
          ih rest inner (depth + 1) l (by push_cast at hd; omega) (by simpa using hlen)]
      rw [hk]
      exact renderSwitch_congr _ _ _ _ rfl rfl rfl rfl rfl

/-- When `json.Marshal` succeeds `convertADFSimple` returns a nil error. -/
theorem convertADFSimple_err {α : Type} (env : Collaborators α) (input : AnyValue α)
    (jsonData : String) (h : env.jsonMarshal input = Except.ok jsonData) :
    (convertADFSimple env input).2 = none := by
  simp only [convertADFSimple, h]
  cases env.jsonUnmarshal jsonData with
  | error e => rfl
  | ok node => cases hc : convertNodeToMarkdown node <;> simp only [hc]

/-! ### Attribute cases, issue keys, asterisk runs and the renderer without guard -/

/-- Without `attrs` no key is bound to a string. -/
theorem attrString_nil (node : ADFNode) (key : String) (h : node.attrs = none) :
    attrString node key = none := by
  simp [attrString, mapIndex, h, assertString]

/-- The `mention` case within the ceiling. -/
theorem convert_mention (node : ADFNode) (depth maxDepth listDepth : Int)
    (hd : depth ≤ maxDepth) (ht : node.type = "mention") :
    convertNodeToMarkdownWithLimit node depth maxDepth listDepth =
      some (match attrString node "text" with
        | some text => text
        | none =>
          match attrString node "displayName" with
          | some displayName => displayName
          | none => "@unknown") := by
  rw [convert_within node depth maxDepth listDepth hd]
  simp only [renderSwitch, ht, String.reduceEq, if_false, if_true]
  cases ha : node.attrs with
  | none => simp [attrString_nil node _ ha]
  | some bindings =>
    simp only [attrString, ha]
    cases assertString (mapIndex (some bindings) "text") with
    | some text => rfl
    | none => cases assertString (mapIndex (some bindings) "displayName") <;> rfl

/-- The `emoji` case within the ceiling. -/
theorem convert_emoji (node : ADFNode) (depth maxDepth listDepth : Int)
    (hd : depth ≤ maxDepth) (ht : node.type = "emoji") :
    convertNodeToMarkdownWithLimit node depth maxDepth listDepth =
      some (match attrString node "text" with
        | some text => text
        | none =>
          match attrString node "shortName" with
          | some shortName => ":" ++ shortName ++ ":"
          | none => ":unknown:") := by
  rw [convert_within node depth maxDepth listDepth hd]
  simp only [renderSwitch, ht, String.reduceEq, if_false, if_true]
  cases ha : node.attrs with
  | none => simp [attrString_nil node _ ha]
  | some bindings =>
    simp only [attrString, ha]
    cases assertString (mapIndex (some bindings) "text") with
    | some text => rfl
    | none => cases assertString (mapIndex (some bindings) "shortName") <;> rfl

/-- The `link` case within the ceiling. -/
theorem convert_link (node : ADFNode) (depth maxDepth listDepth : Int)
    (hd : depth ≤ maxDepth) (ht : node.type = "link") :
    convertNodeToMarkdownWithLimit node depth maxDepth listDepth =
      some (match attrString node "href" with
        | some href => AutoFormatEmoji href
        | none => FormatWithEmoji "unknown" "url") := by
  rw [convert_within node depth maxDepth listDepth hd]
  simp only [renderSwitch, ht, String.reduceEq, if_false, if_true]
  cases ha : node.attrs with
  | none => simp [attrString_nil node _ ha]
  | some bindings =>
    simp only [attrString, ha]
    cases assertString (mapIndex (some bindings) "href") <;> rfl

/-- The `inlineCard` case within the ceiling. -/
theorem convert_inlineCard (node : ADFNode) (depth maxDepth listDepth : Int)
    (hd : depth ≤ maxDepth) (ht : node.type = "inlineCard") :
    convertNodeToMarkdownWithLimit node depth maxDepth listDepth =
      some (match attrString node "url" with
        | some url => AutoFormatEmoji url
        | none => FormatWithEmoji "unknown" "url") := by
  rw [convert_within node depth maxDepth listDepth hd]
  simp only [renderSwitch, ht, String.reduceEq, if_false, if_true]
  cases ha : node.attrs with
  | none => simp [attrString_nil node _ ha]
  | some bindings =>
    simp only [attrString, ha]
    cases assertString (mapIndex (some bindings) "url") <;> rfl

/-- The `image` case within the ceiling. -/
theorem convert_image (node : ADFNode) (depth maxDepth listDepth : Int)
    (hd : depth ≤ maxDepth) (ht : node.type = "image") :
    convertNodeToMarkdownWithLimit node depth maxDepth listDepth =
      some (if (attrString node "src").getD "" ≠ "" then
          "![" ++ (attrString node "alt").getD "Image" ++ "](" ++
            (attrString node "src").getD "" ++ ")"
        else "@image") := by
  rw [convert_within node depth maxDepth listDepth hd]
  simp only [renderSwitch, ht, String.reduceEq, if_false, if_true]
  cases ha : node.attrs with
  | none => simp [attrString_nil node _ ha]
  | some bindings =>
    simp only [attrString, ha]
    cases assertString (mapIndex (some bindings) "src") <;>
      cases assertString (mapIndex (some bindings) "alt") <;>
      simp <;> split <;> rfl

/-- The characters start with a dash and a digit. -/
theorem matchDashDigits_iff (cs : List Char) :
    matchDashDigits cs = true ↔
      ∃ (digit : Char) (rest : List Char), digit.isDigit = true ∧ cs = '-' :: digit :: rest := by
  constructor
  · intro h
    unfold matchDashDigits at h
    split at h
    · exact ⟨_, _, h, rfl⟩
    · exact absurd h (by decide)
  · rintro ⟨digit, rest, hd, rfl⟩
    exact hd

/-- The model of the regular expression matches exactly the texts that start
with capital letters, a dash and a digit. -/
theorem matchTicketKey_iff (text : String) :
    matchTicketKey text = true ↔ StartsWithTicketKey text := by
  simp only [matchTicketKey, Bool.and_eq_true, Bool.not_eq_true', List.isEmpty_eq_false]
  constructor
  · rintro ⟨hne, hm⟩
    obtain ⟨digit, rest, hd, hr⟩ := (matchDashDigits_iff _).mp hm
    refine ⟨text.data.takeWhile Char.isUpper, digit, rest, hne, ?_, hd, ?_⟩
    · intro c hc
      exact List.mem_takeWhile_imp hc
    · rw [← hr, List.takeWhile_append_dropWhile]
  · rintro ⟨letters, digit, rest, hne, hup, hd, hdata⟩
    have hdash : Char.isUpper '-' = false := by decide
    have ht : text.data.takeWhile Char.isUpper = letters := by
      rw [hdata, List.takeWhile_append_of_pos hup]
      simp [List.takeWhile, hdash]
    have hdr : text.data.dropWhile Char.isUpper = '-' :: digit :: rest := by
      rw [hdata, List.dropWhile_append_of_pos hup]
      simp [List.dropWhile, hdash]
    rw [ht, hdr]
    exact ⟨hne, hd⟩

/-- The three outcomes of `AutoFormatEmoji`. -/
theorem autoFormatEmoji_cases (text : String) :
    (stringsHasPrefix text "http://" = true ∨ stringsHasPrefix text "https://" = true →
      AutoFormatEmoji text = "🔗" ++ " " ++ text) ∧
    (stringsHasPrefix text "http://" = false → stringsHasPrefix text "https://" = false →
      StartsWithTicketKey text → AutoFormatEmoji text = "🎫" ++ " " ++ text) ∧
    (stringsHasPrefix text "http://" = false → stringsHasPrefix text "https://" = false →
      ¬ StartsWithTicketKey text → AutoFormatEmoji text = text) := by
  have hurl : ∀ t : String, FormatWithEmoji t "url" = "🔗" ++ " " ++ t := by
    intro t
    have : getEmojiForType "url" = "🔗" := by decide
    simp only [FormatWithEmoji, this]
    rfl
  have hticket : ∀ t : String, FormatWithEmoji t "ticket" = "🎫" ++ " " ++ t := by
    intro t
    have : getEmojiForType "ticket" = "🎫" := by decide
    simp only [FormatWithEmoji, this]
    rfl
  refine ⟨fun h => ?_, fun h1 h2 hk => ?_, fun h1 h2 hk => ?_⟩
  · have : (stringsHasPrefix text "http://" || stringsHasPrefix text "https://") = true := by
      rcases h with h | h <;> simp [h]
    simp only [AutoFormatEmoji, this, if_true, hurl]
  · simp only [AutoFormatEmoji, h1, h2, Bool.or_self, (matchTicketKey_iff text).mpr hk,
      if_true, hticket]
    rfl
  · have hm : matchTicketKey text = false := by
      cases h : matchTicketKey text
      · rfl
      · exact absurd ((matchTicketKey_iff text).mp h) hk
    simp only [AutoFormatEmoji, h1, h2, Bool.or_self, hm]
    rfl

/-- Past the first character the loop looks for any dash. -/
theorem dashAfterStart_pos (i : Nat) (hi : 0 < i) (cs : List Char) :
    dashAfterStart i cs = cs.contains '-' := by
  induction cs generalizing i with
  | nil => rfl
  | cons c rest ih =>
    rw [dashAfterStart, ih (i + c.utf8Size) (by omega)]
    by_cases hc : c = '-'
    · simp [hc, hi]
    · have : ('-' == c) = false := by
        simp only [beq_eq_false_iff_ne, ne_eq]
        exact fun e => hc e.symm
      simp [hc, List.contains, List.elem, this]

/-- The loop returns the key exactly when a dash follows the first character. -/
theorem dashAfterStart_zero (issueKey : String) :
    dashAfterStart 0 issueKey.data = hasDashAfterFirst issueKey := by
  unfold hasDashAfterFirst
  cases issueKey.data with
  | nil => rfl
  | cons c rest =>
    rw [dashAfterStart, dashAfterStart_pos _ (by have := Char.utf8Size_pos c; omega)]
    simp

/-- The function `NormalizeIssueKey` by its two tests. -/
theorem normalizeIssueKey_eq (issueKey defaultProject : String) :
    NormalizeIssueKey issueKey defaultProject =
      if hasDashAfterFirst issueKey then issueKey
      else if startsWithDigit issueKey then defaultProject ++ "-" ++ issueKey
      else issueKey := by
  rw [NormalizeIssueKey, dashAfterStart_zero]

/-- A number has no dash and starts with a digit. -/
theorem isNumber_parts (issueKey : String) (h : isNumber issueKey = true) :
    hasDashAfterFirst issueKey = false ∧ startsWithDigit issueKey = true := by
  simp only [isNumber, Bool.and_eq_true, Bool.not_eq_true', List.isEmpty_eq_false,
    List.all_eq_true] at h
  obtain ⟨hne, hall⟩ := h
  refine ⟨?_, ?_⟩
  · simp only [hasDashAfterFirst]
    cases hc : issueKey.data.tail.contains '-'
    · rfl
    · have hm : '-' ∈ issueKey.data.tail := by simpa using hc
      have := hall '-' (List.mem_of_mem_tail hm)
      exact absurd this (by decide)
  · simp only [startsWithDigit]
    cases hd : issueKey.data with
    | nil => exact absurd hd hne
    | cons c rest => exact hall c (by rw [hd]; exact List.mem_cons_self _ _)

/-- A key with a dash after its first character is returned as it is, and a
number gets the project and a dash in front. -/
theorem normalizeIssueKey_parts (issueKey defaultProject : String) :
    (hasDashAfterFirst issueKey = true →
      NormalizeIssueKey issueKey defaultProject = issueKey) ∧
    (isNumber issueKey = true →
      NormalizeIssueKey issueKey defaultProject = defaultProject ++ "-" ++ issueKey) := by
  refine ⟨fun h => ?_, fun h => ?_⟩
  · rw [normalizeIssueKey_eq, h]
    rfl
  · obtain ⟨h1, h2⟩ := isNumber_parts issueKey h
    rw [normalizeIssueKey_eq, h1, h2]
    rfl

/-- A panic of the renderer leaves `convertADFSimple` with the zero results. -/
theorem convertADFSimple_panic {α : Type} (env : Collaborators α) (input : AnyValue α)
    (jsonData : String) (node : ADFNode)
    (hm : env.jsonMarshal input = Except.ok jsonData)
    (hu : env.jsonUnmarshal jsonData = Except.ok node)
    (hp : convertNodeToMarkdown node = none) :
    convertADFSimple env input = ("", none) := by
  simp only [convertADFSimple, hm, hu, hp]

/-- Children that render as without the guard give the same list. -/
theorem renderChildren_eq_unlimited (nodes : List ADFNode) (depth maxDepth listDepth : Int)
    (h : ∀ child ∈ nodes,
      convertNodeToMarkdownWithLimit child depth maxDepth listDepth =
        renderUnlimited child listDepth) :
    renderChildren nodes depth maxDepth listDepth = renderAllUnlimited nodes listDepth := by
  induction nodes with
  | nil => rw [renderChildren, renderAllUnlimited]
  | cons c rest ih =>
    rw [renderChildren, renderAllUnlimited, h c (List.mem_cons_self _ _),
      ih (fun x hx => h x (List.mem_cons_of_mem _ hx))]

/-- The body of the renderer without the guard. -/
theorem renderUnlimited_unfold (node : ADFNode) (listDepth : Int) :
    renderUnlimited node listDepth =
      renderSwitch node listDepth (fun l => renderAllUnlimited node.content l) := by
  cases node
  rw [renderUnlimited]
  rfl

/-- A tree that fits under the ceiling renders as without the guard. -/
theorem convert_eq_unlimited (node : ADFNode) :
    ∀ depth maxDepth listDepth : Int, depth + height node ≤ maxDepth →
      convertNodeToMarkdownWithLimit node depth maxDepth listDepth =
        renderUnlimited node listDepth := by
  induction node using node_induction with
  | step type content text marks attrs ih =>
    intro depth maxDepth listDepth h
    rw [convert_within _ depth maxDepth listDepth (by omega), renderUnlimited_unfold]
    congr 1
    funext l
    apply renderChildren_eq_unlimited
    intro child hc
    apply ih child hc
    have := height_child type content text marks attrs child hc
    omega

/-- Skipping as many characters as there are in front. -/
theorem replaceAllChars_skip (old new pre rest : List Char) :
    replaceAllChars old new pre.length (pre ++ rest) = replaceAllChars old new 0 rest := by
  induction pre with
  | nil => rfl
  | cons c cs ih =>
    rw [List.length_cons, List.cons_append, replaceAllChars]
    exact ih

/-- The scan at a match: the replacement, then the scan of what follows. -/
theorem replaceAllChars_match (first : Char) (old new rest : List Char) :
    replaceAllChars (first :: old) new 0 ((first :: old) ++ rest) =
      new ++ replaceAllChars (first :: old) new 0 rest := by
  have hp : (first :: old).isPrefixOf (first :: (old ++ rest)) = true := by
    rw [List.isPrefixOf_iff_prefix]
    exact List.prefix_append (first :: old) rest
  rw [List.cons_append, replaceAllChars, if_pos hp]
  have hl : (first :: old).length - 1 = old.length := by simp
  rw [hl, replaceAllChars_skip]

/-- The scan where there is no match: the character, then the scan of the rest. -/
theorem replaceAllChars_step (old new : List Char) (c : Char) (cs : List Char)
    (h : old.isPrefixOf (c :: cs) = false) :
    replaceAllChars old new 0 (c :: cs) = c :: replaceAllChars old new 0 cs := by
  rw [replaceAllChars, if_neg (by simp [h])]

/-- The scan passes over characters among which the first character of `old`
does not occur. -/
theorem replaceAllChars_absent_append (first : Char) (old new pre rest : List Char)
    (h : first ∉ pre) :
    replaceAllChars (first :: old) new 0 (pre ++ rest) =
      pre ++ replaceAllChars (first :: old) new 0 rest := by
  induction pre with
  | nil => rfl
  | cons c cs ih =>
    have hc : first ≠ c := fun e => h (e ▸ List.mem_cons_self _ _)
    have hcs : first ∉ cs := fun e => h (List.mem_cons_of_mem _ e)
    rw [List.cons_append, replaceAllChars_step _ _ _ _ (by simp [List.isPrefixOf, hc]),
      ih hcs, List.cons_append]

/-- The two replacements on two adjacent bold spans. -/
theorem collapse_two_spans (a b : List Char) (ha : a ≠ []) (hsa : '*' ∉ a) (hsb : '*' ∉ b) :
    replaceAllChars ['*', '*', '*'] ['*'] 0
        (replaceAllChars ['*', '*', '*', '*'] [] 0
          (['*', '*'] ++ a ++ ['*', '*'] ++ (['*', '*'] ++ b ++ ['*', '*']))) =
      ['*', '*'] ++ a ++ b ++ ['*', '*'] := by
  obtain ⟨x, xs, rfl⟩ := List.exists_cons_of_ne_nil ha
  have hx : '*' ≠ x := fun e => hsa (e ▸ List.mem_cons_self _ _)
  have hx' : ('*' == x) = false := by simpa using hx
  have e1 : ['*', '*'] ++ (x :: xs) ++ ['*', '*'] ++ (['*', '*'] ++ b ++ ['*', '*']) =
      '*' :: '*' :: ((x :: xs) ++ (['*', '*', '*', '*'] ++ (b ++ ['*', '*']))) := by simp
  have e2 : ['*', '*'] ++ (x :: xs) ++ b ++ ['*', '*'] =
      '*' :: '*' :: ((x :: xs) ++ (b ++ ['*', '*'])) := by simp
  have t4 : replaceAllChars ['*', '*', '*', '*'] [] 0 ['*', '*'] = ['*', '*'] := by decide
  have t3 : replaceAllChars ['*', '*', '*'] ['*'] 0 ['*', '*'] = ['*', '*'] := by decide
  have h4 : replaceAllChars ['*', '*', '*', '*'] [] 0
      ('*' :: '*' :: ((x :: xs) ++ (['*', '*', '*', '*'] ++ (b ++ ['*', '*'])))) =
      '*' :: '*' :: ((x :: xs) ++ (b ++ ['*', '*'])) := by
    rw [replaceAllChars_step _ _ _ _ (by simp [List.isPrefixOf, hx']),
      replaceAllChars_step _ _ _ _ (by simp [List.isPrefixOf, hx']),
      replaceAllChars_absent_append _ _ _ _ _ hsa,
      replaceAllChars_match, replaceAllChars_absent_append _ _ _ _ _ hsb, t4,
      List.nil_append]
  have h3 : replaceAllChars ['*', '*', '*'] ['*'] 0
      ('*' :: '*' :: ((x :: xs) ++ (b ++ ['*', '*']))) =
      '*' :: '*' :: ((x :: xs) ++ (b ++ ['*', '*'])) := by
    rw [replaceAllChars_step _ _ _ _ (by simp [List.isPrefixOf, hx']),
      replaceAllChars_step _ _ _ _ (by simp [List.isPrefixOf, hx']),
      replaceAllChars_absent_append _ _ _ _ _ hsa,
      replaceAllChars_absent_append _ _ _ _ _ hsb, t3]
  rw [e1, h4, h3, e2]

/-- The two replacements on a text between three asterisks on each side. -/
theorem collapse_bold_italic (t : List Char) (ht : t ≠ []) (hs : '*' ∉ t) :
    replaceAllChars ['*', '*', '*'] ['*'] 0
        (replaceAllChars ['*', '*', '*', '*'] [] 0
          (['*', '*', '*'] ++ t ++ ['*', '*', '*'])) =
      ['*'] ++ t ++ ['*'] := by
  obtain ⟨x, xs, rfl⟩ := List.exists_cons_of_ne_nil ht
  have hx : '*' ≠ x := fun e => hs (e ▸ List.mem_cons_self _ _)
  have hx' : ('*' == x) = false := by simpa using hx
  have e1 : ['*', '*', '*'] ++ (x :: xs) ++ ['*', '*', '*'] =
      '*' :: '*' :: '*' :: ((x :: xs) ++ ['*', '*', '*']) := by simp
  have e2 : '*' :: '*' :: '*' :: ((x :: xs) ++ ['*', '*', '*']) =
      ['*', '*', '*'] ++ ((x :: xs) ++ (['*', '*', '*'] ++ [])) := by simp
  have t4 : replaceAllChars ['*', '*', '*', '*'] [] 0 ['*', '*', '*'] = ['*', '*', '*'] := by
    decide
  have t3 : replaceAllChars ['*', '*', '*'] ['*'] 0 [] = [] := by decide
  have h4 : replaceAllChars ['*', '*', '*', '*'] [] 0
      ('*' :: '*' :: '*' :: ((x :: xs) ++ ['*', '*', '*'])) =
      '*' :: '*' :: '*' :: ((x :: xs) ++ ['*', '*', '*']) := by
    rw [replaceAllChars_step _ _ _ _ (by simp [List.isPrefixOf, hx']),
      replaceAllChars_step _ _ _ _ (by simp [List.isPrefixOf, hx']),
      replaceAllChars_step _ _ _ _ (by simp [List.isPrefixOf, hx']),
      replaceAllChars_absent_append _ _ _ _ _ hs, t4]
  have h3 : replaceAllChars ['*', '*', '*'] ['*'] 0
      (['*', '*', '*'] ++ ((x :: xs) ++ (['*', '*', '*'] ++ []))) =
      ['*'] ++ ((x :: xs) ++ (['*'] ++ [])) := by
    rw [replaceAllChars_match, replaceAllChars_absent_append _ _ _ _ _ hs,
      replaceAllChars_match, t3]
  rw [e1, h4, e2, h3]
  simp

/-- A string between asterisks is its own trimmed form. -/
theorem trimSpace_starred (inner : List Char) :
    stringsTrimSpace (String.mk ('*' :: (inner ++ ['*']))) =
      String.mk ('*' :: (inner ++ ['*'])) := by
  apply String.ext
  have hstar : isSpace '*' = false := by decide
  have hd : ('*' :: (inner ++ ['*'])).dropWhile isSpace = '*' :: (inner ++ ['*']) := by
    simp [List.dropWhile, hstar]
  have e : '*' :: (inner ++ ['*']) = ('*' :: inner) ++ ['*'] := rfl
  simp only [stringsTrimSpace, hd, dropTrailing_eq_rdropWhile]
  rw [e, List.rdropWhile_concat_neg _ _ _ (by simp [hstar])]

/-- The tail of the `paragraph` case on two adjacent bold spans. -/
theorem paragraphText_two_spans (a b : String) (ha : a ≠ "") (hsa : '*' ∉ a.data)
    (hsb : '*' ∉ b.data) :
    paragraphText ("**" ++ a ++ "**" ++ ("**" ++ b ++ "**")) = "**" ++ a ++ b ++ "**\n" := by
  have hne : a.data ≠ [] := fun e => ha (String.ext e)
  have hr : stringsReplaceAll
      (stringsReplaceAll ("**" ++ a ++ "**" ++ ("**" ++ b ++ "**")) "****" "") "***" "*" =
      String.mk ('*' :: (('*' :: (a.data ++ b.data ++ ['*'])) ++ ['*'])) := by
    apply String.ext
    have := collapse_two_spans a.data b.data hne hsa hsb
    simp only [stringsReplaceAll]
    simpa using this
  simp only [paragraphText, hr, trimSpace_starred]
  have hnn : (String.mk ('*' :: (('*' :: (a.data ++ b.data ++ ['*'])) ++ ['*']))) ≠ "" := by
    intro e
    have := congrArg String.data e
    simp at this
  simp only [hnn, if_false, ite_self]
  apply String.ext
  simp

/-- The tail of the `paragraph` case on a bold and italic text. -/
theorem paragraphText_bold_italic (t : String) (ht : t ≠ "") (hs : '*' ∉ t.data) :
    paragraphText ("***" ++ t ++ "***") = "*" ++ t ++ "*\n" := by
  have hne : t.data ≠ [] := fun e => ht (String.ext e)
  have hr : stringsReplaceAll (stringsReplaceAll ("***" ++ t ++ "***") "****" "") "***" "*" =
      String.mk ('*' :: (t.data ++ ['*'])) := by
    apply String.ext
    have := collapse_bold_italic t.data hne hs
    simp only [stringsReplaceAll]
    simpa using this
  simp only [paragraphText, hr, trimSpace_starred]
  have hnn : (String.mk ('*' :: (t.data ++ ['*']))) ≠ "" := by
    intro e
    have := congrArg String.data e
    simp at this
  simp only [hnn, if_false, ite_self]
  apply String.ext
  simp

/-- A text node with marks, within the ceiling. -/
theorem convert_markedText (text : String) (markTypes : List String)
    (depth maxDepth listDepth : Int) (hd : depth ≤ maxDepth) :
    convertNodeToMarkdownWithLimit (markedText text markTypes) depth maxDepth listDepth =
      some ((markTypes.map ADFMark.mk).foldl applyMark text) :=
  convert_text (markedText text markTypes) depth maxDepth listDepth hd rfl

/-- The marks `strong` and `em`, in either order, put three asterisks on each
side. -/
theorem bold_italic_text (t : String) :
    [ADFMark.mk "strong", ADFMark.mk "em"].foldl applyMark t = "***" ++ t ++ "***" ∧
    [ADFMark.mk "em", ADFMark.mk "strong"].foldl applyMark t = "***" ++ t ++ "***" := by
  constructor <;>
  · simp only [List.foldl_cons, List.foldl_nil, applyMark, String.reduceEq, if_true, if_false]
    apply String.ext
    simp

/-- A paragraph of two adjacent bold spans renders as one bold span. -/
theorem convert_twoBoldSpans (a b : String) (ha : a ≠ "") (hsa : '*' ∉ a.data)
    (hsb : '*' ∉ b.data) (depth maxDepth listDepth : Int) (hd : depth + 1 ≤ maxDepth) :
    convertNodeToMarkdownWithLimit (twoBoldSpans a b) depth maxDepth listDepth =
      some ("**" ++ a ++ b ++ "**\n") := by
  rw [convert_paragraph (twoBoldSpans a b) depth maxDepth listDepth (by omega) rfl]
  have hc : (twoBoldSpans a b).content =
      [markedText a ["strong"], markedText b ["strong"]] := rfl
  rw [hc, renderChildren, convert_markedText a _ _ _ _ hd, renderChildren,
    convert_markedText b _ _ _ _ hd, renderChildren]
  have hm : ∀ s : String, (["strong"].map ADFMark.mk).foldl applyMark s = "**" ++ s ++ "**" := by
    intro s
    simp [applyMark]
  simp only [hm, Option.map_some', writeAll, List.foldl_cons, List.foldl_nil,
    String.empty_append]
  rw [paragraphText_two_spans a b ha hsa hsb]

/-- A paragraph of one bold and italic text renders the text as italic. -/
theorem convert_boldItalicParagraph (t : String) (ht : t ≠ "") (hs : '*' ∉ t.data)
    (markTypes : List String)
    (hm : markTypes = ["strong", "em"] ∨ markTypes = ["em", "strong"])
    (depth maxDepth listDepth : Int) (hd : depth + 1 ≤ maxDepth) :
    convertNodeToMarkdownWithLimit (containerNode "paragraph" [markedText t markTypes])
        depth maxDepth listDepth = some ("*" ++ t ++ "*\n") := by
  rw [convert_paragraph (containerNode "paragraph" [markedText t markTypes]) depth maxDepth
    listDepth (by omega) rfl]
  have hc : (containerNode "paragraph" [markedText t markTypes]).content =
      [markedText t markTypes] := rfl
  have hf : (markTypes.map ADFMark.mk).foldl applyMark t = "***" ++ t ++ "***" := by
    rcases hm with hm | hm <;> subst hm
    · exact (bold_italic_text t).1
    · exact (bold_italic_text t).2
  rw [hc, renderChildren, convert_markedText t _ _ _ _ hd, renderChildren, hf]
  simp only [Option.map_some', writeAll, List.foldl_cons, List.foldl_nil,
    String.empty_append]
  rw [paragraphText_bold_italic t ht hs]

/-- Induction along the scan: a relation between input and output holds when
it holds at the end, is kept by a match and is kept by a single step. -/
theorem replaceAllChars_induction (first : Char) (old new : List Char)
    (P : List Char → List Char → Prop) (hnil : P [] [])
    (hmatch : ∀ rest out, P rest out → P ((first :: old) ++ rest) (new ++ out))
    (hstep : ∀ c cs out, (first :: old).isPrefixOf (c :: cs) = false → P cs out →
      P (c :: cs) (c :: out)) :
    ∀ s, P s (replaceAllChars (first :: old) new 0 s) := by
  suffices hs : ∀ n : Nat, ∀ s : List Char, s.length = n →
      P s (replaceAllChars (first :: old) new 0 s) from fun s => hs s.length s rfl
  intro n
  induction n using Nat.strong_induction_on with
  | _ n ih =>
    intro s h
    cases s with
    | nil => exact hnil
    | cons c cs =>
      cases hp : (first :: old).isPrefixOf (c :: cs)
      · rw [replaceAllChars_step _ _ _ _ hp]
        exact hstep c cs _ hp (ih cs.length (by simp at h; omega) cs rfl)
      · obtain ⟨rest, hr⟩ := List.isPrefixOf_iff_prefix.mp hp
        rw [← hr, replaceAllChars_match]
        apply hmatch
        refine ih rest.length ?_ rest rfl
        have := congrArg List.length hr
        simp at this h
        omega

/-- A run of `k` asterisks is at the start exactly when at least `k` asterisks
lead. -/
theorem isPrefixOf_stars (k : Nat) (l : List Char) :
    (List.replicate k '*').isPrefixOf l = true ↔ k ≤ leadingStars l := by
  induction k generalizing l with
  | zero => simp [List.isPrefixOf]
  | succ k ih =>
    cases l with
    | nil => simp [List.replicate, List.isPrefixOf, leadingStars]
    | cons c cs =>
      by_cases hc : c = '*'
      · subst hc
        simp [List.replicate, List.isPrefixOf, leadingStars, ih]
      · have : ('*' == c) = false := by simpa using fun e => hc e.symm
        simp [List.replicate, List.isPrefixOf, leadingStars, hc, this]

/-- Asterisks put in front are counted in front. -/
theorem leadingStars_stars_append (k : Nat) (l : List Char) :
    leadingStars (List.replicate k '*' ++ l) = k + leadingStars l := by
  induction k with
  | zero => simp
  | succ k ih =>
    rw [List.replicate_succ, List.cons_append, leadingStars, if_pos rfl, ih]
    omega

/-- One more character in front gives no run of `k` asterisks when fewer than
`k` lead and there was none before. -/
theorem containsChars_cons_stars (k : Nat) (c : Char) (cs : List Char)
    (hlead : leadingStars (c :: cs) < k) (h : containsChars (List.replicate k '*') cs = false) :
    containsChars (List.replicate k '*') (c :: cs) = false := by
  rw [containsChars, h, Bool.or_false]
  cases hp : (List.replicate k '*').isPrefixOf (c :: cs)
  · rfl
  · have := (isPrefixOf_stars k (c :: cs)).mp hp
    omega

/-- What does not occur in a list does not occur in its end. -/
theorem containsChars_of_append (sub pre l : List Char)
    (h : containsChars sub (pre ++ l) = false) : containsChars sub l = false := by
  induction pre with
  | nil => exact h
  | cons c cs ih =>
    rw [List.cons_append, containsChars] at h
    simp only [Bool.or_eq_false_iff] at h
    exact ih h.2

/-- After the removal of `****` no four asterisks stand in a row, and the
asterisks at the start are those of the input modulo 4. -/
theorem removeFour_invariant (s : List Char) :
    containsChars (List.replicate 4 '*') (replaceAllChars (List.replicate 4 '*') [] 0 s) = false ∧
      leadingStars (replaceAllChars (List.replicate 4 '*') [] 0 s) = leadingStars s % 4 := by
  refine replaceAllChars_induction '*' (List.replicate 3 '*') []
    (fun s out => containsChars (List.replicate 4 '*') out = false ∧
      leadingStars out = leadingStars s % 4) ?_ ?_ ?_ s
  · exact ⟨by decide, by decide⟩
  · intro rest out h
    refine ⟨h.1, ?_⟩
    have := leadingStars_stars_append 4 rest
    rw [show '*' :: List.replicate 3 '*' = List.replicate 4 '*' from rfl, this, List.nil_append,
      h.2]
    omega
  · intro c cs out hp h
    have hlt : leadingStars (c :: cs) < 4 := by
      by_contra hge
      have := (isPrefixOf_stars 4 (c :: cs)).mpr (by omega)
      rw [show '*' :: List.replicate 3 '*' = List.replicate 4 '*' from rfl] at hp
      rw [hp] at this
      exact absurd this (by decide)
    have hl : leadingStars (c :: out) = leadingStars (c :: cs) % 4 := by
      by_cases hc : c = '*'
      · simp only [leadingStars, hc, if_true] at hlt ⊢
        rw [h.2]
        omega
      · simp [leadingStars, hc]
    refine ⟨containsChars_cons_stars 4 c out ?_ h.1, hl⟩
    rw [hl]
    exact Nat.mod_lt _ (by decide)

/-- When no four asterisks stand in a row, replacing `***` by `*` leaves no
three in a row; at most two lead, and up to two leading ones are kept. -/
theorem collapseThree_invariant (s : List Char) :
    containsChars (List.replicate 4 '*') s = false →
      containsChars (List.replicate 3 '*')
          (replaceAllChars (List.replicate 3 '*') ['*'] 0 s) = false ∧
        leadingStars (replaceAllChars (List.replicate 3 '*') ['*'] 0 s) ≤ 2 ∧
        (leadingStars s ≤ 2 →
          leadingStars (replaceAllChars (List.replicate 3 '*') ['*'] 0 s) = leadingStars s) := by
  refine replaceAllChars_induction '*' (List.replicate 2 '*') ['*']
    (fun s out => containsChars (List.replicate 4 '*') s = false →
      containsChars (List.replicate 3 '*') out = false ∧ leadingStars out ≤ 2 ∧
        (leadingStars s ≤ 2 → leadingStars out = leadingStars s)) ?_ ?_ ?_ s
  · intro _
    exact ⟨by decide, by decide, fun _ => rfl⟩
  · intro rest out ih hno
    rw [show '*' :: List.replicate 2 '*' = List.replicate 3 '*' from rfl] at hno ⊢
    have hrest : containsChars (List.replicate 4 '*') rest = false :=
      containsChars_of_append _ _ _ hno
    have hlead : leadingStars rest = 0 := by
      by_contra hne
      have h4 : 4 ≤ leadingStars (List.replicate 3 '*' ++ rest) := by
        rw [leadingStars_stars_append]
        omega
      have hp := (isPrefixOf_stars 4 _).mpr h4
      have : containsChars (List.replicate 4 '*') (List.replicate 3 '*' ++ rest) = true := by
        rw [show List.replicate 3 '*' ++ rest = '*' :: (List.replicate 2 '*' ++ rest) from rfl,
          containsChars]
        rw [show List.replicate 3 '*' ++ rest = '*' :: (List.replicate 2 '*' ++ rest) from rfl]
          at hp
        rw [hp]
        rfl
      rw [this] at hno
      exact absurd hno (by decide)
    obtain ⟨i1, i2, i3⟩ := ih hrest
    have hout : leadingStars out = 0 := by rw [i3 (by omega), hlead]
    have hl : leadingStars (['*'] ++ out) = 1 := by
      simp [leadingStars, hout]
    refine ⟨?_, by omega, fun hle => ?_⟩
    · exact containsChars_cons_stars 3 '*' out (by simpa using hl ▸ (by decide : 1 < 3)) i1
    · rw [leadingStars_stars_append] at hle
      omega
  · intro c cs out hp ih hno
    rw [show '*' :: List.replicate 2 '*' = List.replicate 3 '*' from rfl] at hp
    have hcs : containsChars (List.replicate 4 '*') cs = false :=
      containsChars_of_append _ [c] _ hno
    have hlt : leadingStars (c :: cs) < 3 := by
      by_contra hge
      have := (isPrefixOf_stars 3 (c :: cs)).mpr (by omega)
      rw [hp] at this
      exact absurd this (by decide)
    obtain ⟨i1, i2, i3⟩ := ih hcs
    have hl : leadingStars (c :: out) = leadingStars (c :: cs) := by
      by_cases hc : c = '*'
      · simp only [leadingStars, hc, if_true] at hlt ⊢
        rw [i3 (by omega)]
      · simp [leadingStars, hc]
    exact ⟨containsChars_cons_stars 3 c out (by omega) i1, by omega, fun _ => hl⟩

/-- The search for `sub` succeeds exactly when `sub` is an infix. -/
theorem containsChars_iff_occurs (sub l : List Char) :
    containsChars sub l = true ↔ sub <:+: l := by
  induction l with
  | nil =>
    rw [containsChars, List.infix_nil]
    simp
  | cons c cs ih =>
    rw [containsChars, Bool.or_eq_true, List.isPrefixOf_iff_prefix, ih, List.infix_cons_iff]

/-- What does not occur in a list does not occur in any part of it. -/
theorem containsChars_of_part (sub l l' : List Char) (hi : l' <:+: l)
    (h : containsChars sub l = false) : containsChars sub l' = false := by
  cases hc : containsChars sub l'
  · rfl
  · have := (containsChars_iff_occurs sub l).mpr
      (List.IsInfix.trans ((containsChars_iff_occurs sub l').mp hc) hi)
    rw [h] at this
    exact absurd this (by decide)

/-- A character outside `sub` put at the end does not make `sub` occur. -/
theorem containsChars_concat (sub l : List Char) (x : Char) (hne : sub ≠ [])
    (hx : x ∉ sub) (h : containsChars sub l = false) :
    containsChars sub (l ++ [x]) = false := by
  cases hc : containsChars sub (l ++ [x])
  · rfl
  · exfalso
    obtain ⟨u, v, huv⟩ := (containsChars_iff_occurs sub _).mp hc
    rcases List.eq_nil_or_concat v with hv | ⟨v', y, hv⟩
    · subst hv
      rcases List.eq_nil_or_concat sub with hs | ⟨sub', z, hs⟩
      · exact hne hs
      · subst hs
        rw [List.append_nil, List.concat_eq_append, ← List.append_assoc] at huv
        have := (List.append_inj' huv rfl).2
        simp only [List.cons.injEq, and_true] at this
        exact hx (by simp [this])
    · subst hv
      rw [List.concat_eq_append, ← List.append_assoc] at huv
      have := (List.append_inj' huv rfl).1
      have hin : sub <:+: l := ⟨u, v', this⟩
      have := (containsChars_iff_occurs sub l).mpr hin
      rw [h] at this
      exact absurd this (by decide)

/-- The trimmed string is a part of the string. -/
theorem trimSpace_part (s : String) : (stringsTrimSpace s).data <:+: s.data := by
  simp only [stringsTrimSpace, dropTrailing_eq_rdropWhile]
  exact List.IsInfix.trans (List.rdropWhile_prefix isSpace _).isInfix
    (List.dropWhile_suffix isSpace).isInfix

/-- The tail of the `paragraph` case never returns three asterisks in a row. -/
theorem paragraphText_no_run (s : String) :
    stringsContains (paragraphText s) "***" = false := by
  have h4 := (removeFour_invariant s.data).1
  have h3 := (collapseThree_invariant _ h4).1
  have hr : (stringsReplaceAll (stringsReplaceAll s "****" "") "***" "*").data =
      replaceAllChars (List.replicate 3 '*') ['*'] 0
        (replaceAllChars (List.replicate 4 '*') [] 0 s.data) := rfl
  have ht : containsChars (List.replicate 3 '*')
      (stringsTrimSpace
        (stringsReplaceAll (stringsReplaceAll s "****" "") "***" "*")).data = false :=
    containsChars_of_part _ _ _ (trimSpace_part _) (hr ▸ h3)
  simp only [paragraphText, ite_self]
  split
  · decide
  · exact containsChars_concat (List.replicate 3 '*') _ '\n' (by decide) (by decide) ht

/-- The descent of the renderer is bounded.  It returns a string when every
heading level lies between 0 and the allocation limit, the list depth is not
negative and the deepest indent fits the allocation limit; whatever the
tree, every recursive call carries a depth above that of its caller and of
at most `maxDepth + 1`, so from depth 0 under the ceiling 10 all calls stay
within depths 1 to 11, and the tree cut below level 11 renders like the
tree. -/
theorem bounded_descent (node : ADFNode) (depth maxDepth listDepth : Int) :
    (levelsOk node = true → 0 ≤ listDepth → 2 * (listDepth + height node) ≤ maxAlloc →
      ∃ s, convertNodeToMarkdownWithLimit node depth maxDepth listDepth = some s) ∧
    (∀ d ∈ recursiveCalls node depth maxDepth, depth < d ∧ d ≤ maxDepth + 1) ∧
    (∀ d ∈ recursiveCalls node 0 10, 1 ≤ d ∧ d ≤ 11) ∧
    convertNodeToMarkdown (prune 11 node) = convertNodeToMarkdown node := by
  refine ⟨fun hok hl hb => convert_defined node hok depth maxDepth listDepth hl hb,
    recursiveCalls_bound node depth maxDepth, fun d hd => ?_,
    convert_prune 11 node 0 10 0 (by decide)⟩
  have := recursiveCalls_bound node 0 10 d hd
  omega

/-- A chain of 15 nested nodes renders to a string. -/
theorem bounded_descent_example :
    ∃ s, convertNodeToMarkdownWithLimit (nestedDocs 15) 0 10 0 = some s :=
  (bounded_descent (nestedDocs 15) 0 10 0).1 (by decide) (by decide) (by decide)

/-- A heading within the ceiling whose level lies between 0 and the
allocation limit renders as `#` repeated level times, a space, the
concatenation of its children and a newline, the level being the number
bound to `level` in `attrs` converted to an integer, or 1 without such a
number; level 2 with the text `Title` gives `## Title` and a newline. -/
theorem heading_rendering (node : ADFNode) (depth maxDepth listDepth : Int)
    (hd : depth ≤ maxDepth) (ht : node.type = "heading")
    (hlevel : 0 ≤ headingLevel node) (hfit : headingLevel node ≤ maxAlloc) :
    convertNodeToMarkdownWithLimit node depth maxDepth listDepth =
        (renderChildren node.content (depth + 1) maxDepth listDepth).map
          (fun items =>
            String.join (List.replicate (headingLevel node).toNat "#") ++ " " ++
              writeAll items ++ "\n") ∧
    convertNodeToMarkdownWithLimit (headingNode 2 [textNode "Title"]) 0 10 0 =
      some "## Title\n" := by
  refine ⟨?_, by decide⟩
  rw [convert_within node depth maxDepth listDepth hd, renderSwitch_heading _ _ _ ht,
    stringsRepeat_hash _ hlevel hfit]
  cases hk : renderChildren node.content (depth + 1) maxDepth listDepth <;> simp

/-- A heading of level 3 with two text children. -/
theorem heading_rendering_example :
    convertNodeToMarkdownWithLimit
      (headingNode 3 [textNode "Release ", textNode "notes"]) 0 10 0 =
      some "### Release notes\n" :=
  (heading_rendering (headingNode 3 [textNode "Release ", textNode "notes"]) 0 10 0
    (by decide) rfl (by decide) (by decide)).1.trans (by decide)

/-- A heading of level 10^18, a number that JSON can carry, has no output:
the result of `strings.Repeat` would be beyond the allocation limit. -/
theorem heading_huge_level_no_output :
    convertNodeToMarkdownWithLimit
      (headingNode 1000000000000000000 [textNode "Title"]) 0 10 0 = none := by
  decide

/-! ### The claims -/

/-- C1: beyond the ceiling the renderer returns the placeholder `[...]`
whatever the node and the list depth are; with the ceiling 10 this happens
from depth 11 on, and up to depth 10 the result is the one of the switch on
the node type. -/
theorem recursion_guard (node : ADFNode) (depth maxDepth listDepth : Int) :
    (maxDepth < depth →
      convertNodeToMarkdownWithLimit node depth maxDepth listDepth = some "[...]") ∧
    (11 ≤ depth →
      convertNodeToMarkdownWithLimit node depth 10 listDepth = some "[...]") ∧
    (depth ≤ 10 →
      convertNodeToMarkdownWithLimit node depth 10 listDepth =
        renderSwitch node listDepth
          (fun l => renderChildren node.content (depth + 1) 10 l)) := by
  refine ⟨fun h => ?_, fun h => ?_, fun h => ?_⟩
  · rw [convert_unfold, if_pos h]
  · rw [convert_unfold, if_pos (by omega)]
  · rw [convert_unfold, if_neg (by omega)]

/-- The guard of C1 at a paragraph met at depth 11 under the ceiling 10. -/
theorem recursion_guard_witness :
    convertNodeToMarkdownWithLimit
      (ADFNode.mk "paragraph" [ADFNode.mk "text" [] "deep" [] none] "" [] none)
      11 10 0 = some "[...]" :=
  (recursion_guard _ 11 10 0).1 (by decide)

/-- C2 fails on the code: the call on a heading of level -2, at depth 0 under
the ceiling 10 and list depth 0, ends in the panic of `strings.Repeat` and
returns no string. -/
theorem no_string_for_negative_level :
    ¬ ∃ s : String,
      convertNodeToMarkdownWithLimit (headingNode (-2) []) 0 10 0 = some s := by
  have h : convertNodeToMarkdownWithLimit (headingNode (-2) []) 0 10 0 = none := by
    decide
  simp [h]

/-- C3 fails on the code: a document that holds a heading of level -1 makes
the renderer panic at depth 0 and list depth 0. -/
theorem renderer_panics_below_doc :
    convertNodeToMarkdownWithLimit
      (containerNode "doc"
        [containerNode "paragraph" [textNode "intro"], headingNode (-1) [textNode "Title"]])
      0 10 0 = none := by decide

/-- C4: a text node within the ceiling renders as its text wrapped by its
marks from left to right; `strong`, `em` and `code` wrap with `**`, `*` and a
backquote, every other mark changes nothing; without marks the text itself
is the result, and removing the unrecognised marks keeps the result. -/
theorem text_mark_composition (node : ADFNode) (depth maxDepth listDepth : Int)
    (hd : depth ≤ maxDepth) (ht : node.type = "text") :
    convertNodeToMarkdownWithLimit node depth maxDepth listDepth =
        some (node.marks.foldl applyMark node.text) ∧
    (∀ s : String,
      applyMark s (ADFMark.mk "strong") = "**" ++ s ++ "**" ∧
      applyMark s (ADFMark.mk "em") = "*" ++ s ++ "*" ∧
      applyMark s (ADFMark.mk "code") = "`" ++ s ++ "`" ∧
      ∀ mark : ADFMark, mark.type ≠ "strong" → mark.type ≠ "em" →
        mark.type ≠ "code" → applyMark s mark = s) ∧
    (node.marks = [] →
      convertNodeToMarkdownWithLimit node depth maxDepth listDepth = some node.text) ∧
    convertNodeToMarkdownWithLimit node depth maxDepth listDepth =
      convertNodeToMarkdownWithLimit
        (withMarks node (node.marks.filter recognizedMark)) depth maxDepth listDepth := by
  have key : ∀ n : ADFNode, n.type = "text" →
      convertNodeToMarkdownWithLimit n depth maxDepth listDepth =
        some (n.marks.foldl applyMark n.text) :=
    fun n hn => convert_text n depth maxDepth listDepth hd hn
  refine ⟨key node ht, ?_, ?_, ?_⟩
  · intro s
    refine ⟨by simp [applyMark], by simp [applyMark], by simp [applyMark], ?_⟩
    intro mark h1 h2 h3
    simp [applyMark, h1, h2, h3]
  · intro hm
    rw [key node ht, hm]
    rfl
  · rw [key node ht, key _ (by simpa [withMarks, ADFNode.type] using ht)]
    simp [withMarks, ADFNode.marks, ADFNode.text, foldl_applyMark_filter]

/-- The statement of C4 at the text `a` marked `strong`, `color`, `em`. -/
theorem text_mark_composition_witness :
    convertNodeToMarkdownWithLimit
      (ADFNode.mk "text" [] "a"
        [ADFMark.mk "strong", ADFMark.mk "color", ADFMark.mk "em"] none) 0 10 0 =
      some "***a***" :=
  (text_mark_composition
    (ADFNode.mk "text" [] "a"
      [ADFMark.mk "strong", ADFMark.mk "color", ADFMark.mk "em"] none) 0 10 0
    (by decide) rfl).1.trans (by decide)

/-- C5: a paragraph within the ceiling renders as the concatenation of its
children with `****` removed, then `***` replaced by `*`, then trimmed of
surrounding white space: the empty string when nothing is left, and the
trimmed text followed by one newline otherwise, whatever markers the text
contains; a paragraph without content renders as the empty string. -/
theorem paragraph_rendering (node : ADFNode) (depth maxDepth listDepth : Int)
    (hd : depth ≤ maxDepth) (ht : node.type = "paragraph") :
    convertNodeToMarkdownWithLimit node depth maxDepth listDepth =
        (renderChildren node.content (depth + 1) maxDepth listDepth).map
          (fun items =>
            let s := writeAll items
            let c := stringsReplaceAll (stringsReplaceAll s "****" "") "***" "*"
            let t := stringsTrimSpace c
            if t = "" then "" else t ++ "\n") ∧
    (node.content = [] →
      convertNodeToMarkdownWithLimit node depth maxDepth listDepth = some "") := by
  have key : convertNodeToMarkdownWithLimit node depth maxDepth listDepth =
      (renderChildren node.content (depth + 1) maxDepth listDepth).map
        (fun items => paragraphText (writeAll items)) :=
    convert_paragraph node depth maxDepth listDepth hd ht
  refine ⟨?_, ?_⟩
  · rw [key]
    congr 1
    funext items
    simp [paragraphText]
  · intro hc
    rw [key, hc, renderChildren]
    decide

/-- The statement of C5 at the empty paragraph. -/
theorem paragraph_rendering_witness :
    convertNodeToMarkdownWithLimit (ADFNode.mk "paragraph" [] "" [] none) 0 10 0 =
      some "" :=
  (paragraph_rendering (ADFNode.mk "paragraph" [] "" [] none) 0 10 0
    (by decide) rfl).2 rfl

/-- C6, amended: a listItem within the ceiling, at a list depth `L` that is
not negative and whose indent of `2 * L` bytes fits the allocation limit,
renders as `L` times two spaces, the bullet literal, one space and the
concatenation of its children, rendered at the same list depth, without its
trailing newlines. -/
theorem listItem_rendering (node : ADFNode) (depth maxDepth listDepth : Int)
    (hd : depth ≤ maxDepth) (ht : node.type = "listItem") (hl : 0 ≤ listDepth)
    (hfit : 2 * listDepth ≤ maxAlloc) :
    convertNodeToMarkdownWithLimit node depth maxDepth listDepth =
      (renderChildren node.content (depth + 1) maxDepth listDepth).map
        (fun items =>
          String.join (List.replicate listDepth.toNat "  ") ++ "‚Ä¢" ++ " " ++
            stringsTrimRight (writeAll items) "\n") := by
  rw [convert_listItem node depth maxDepth listDepth hd ht hl hfit]
  have hp : bulletPrefix = "‚Ä¢" ++ " " := by decide
  simp only [hp, String.append_assoc]

/-- The statement of C6 at an item holding the text `x` and a line break, at
list depth 2. -/
theorem listItem_rendering_witness :
    convertNodeToMarkdownWithLimit
      (ADFNode.mk "listItem"
        [ADFNode.mk "text" [] "x" [] none, ADFNode.mk "hardBreak" [] "" [] none]
        "" [] none) 0 10 2 = some "    ‚Ä¢ x" :=
  (listItem_rendering
    (ADFNode.mk "listItem"
      [ADFNode.mk "text" [] "x" [] none, ADFNode.mk "hardBreak" [] "" [] none]
      "" [] none) 0 10 2 (by decide) rfl (by decide) (by decide)).trans (by decide)

/-- C6 as stated fails: at the list depth 2^62, which is not negative, a
listItem has no output; the length of the indent overflows `int` and
`strings.Repeat` panics. -/
theorem listItem_indent_overflow :
    (0 : Int) ≤ 4611686018427387904 ∧
    convertNodeToMarkdownWithLimit (containerNode "listItem" [textNode "x"])
      0 10 4611686018427387904 = none := by
  decide

/-- C7: a bulletList within the ceiling renders as the renderings of its
children, each at `depth+1` and list depth `listDepth+1`, joined by single
newlines with nothing after the last one; it is empty without children. -/
theorem bulletList_rendering (node : ADFNode) (depth maxDepth listDepth : Int)
    (hd : depth ≤ maxDepth) (ht : node.type = "bulletList") :
    convertNodeToMarkdownWithLimit node depth maxDepth listDepth =
        (renderChildren node.content (depth + 1) maxDepth (listDepth + 1)).map
          (fun items => String.intercalate "\n" items) ∧
    (∀ items : List String,
      renderChildren node.content (depth + 1) maxDepth (listDepth + 1) = some items ↔
        List.Forall₂
          (fun child item =>
            convertNodeToMarkdownWithLimit child (depth + 1) maxDepth (listDepth + 1) =
              some item)
          node.content items) ∧
    (node.content = [] →
      convertNodeToMarkdownWithLimit node depth maxDepth listDepth = some "") := by
  have key : convertNodeToMarkdownWithLimit node depth maxDepth listDepth =
        (renderChildren node.content (depth + 1) maxDepth (listDepth + 1)).map
          (fun items => String.intercalate "\n" items) :=
    convert_bulletList node depth maxDepth listDepth hd ht
  refine ⟨key, fun items => renderChildren_some_iff _ _ _ _ _, ?_⟩
  intro hc
  rw [key, hc, renderChildren]
  rfl

/-- The statement of C7 at a list of an item, a text and a paragraph. -/
theorem bulletList_rendering_witness :
    convertNodeToMarkdownWithLimit
      (containerNode "bulletList"
        [containerNode "listItem" [containerNode "paragraph" [textNode "a"]],
         textNode "b", containerNode "paragraph" [textNode "c"]])
      0 10 0 = some "  ‚Ä¢ a\nb\nc\n" :=
  (bulletList_rendering
    (containerNode "bulletList"
      [containerNode "listItem" [containerNode "paragraph" [textNode "a"]],
       textNode "b", containerNode "paragraph" [textNode "c"]])
    0 10 0 (by decide) rfl).1.trans (by decide)

/-- C8: a bulletList rendered at depth 0 and list depth 0 whose single item
holds a paragraph of plain text `outer` and a bulletList of items of plain
texts renders as one indent, the bullet and `outer`, followed for each inner
text by a newline, two indents, the bullet and that text; and no bulletList
or orderedList whose children are all listItems renders, at any depth and
list depth, to a string that ends with a newline. -/
theorem list_nesting (outer : String) (inner : List String)
    (ho : isPlain outer = true) (hi : ∀ t ∈ inner, isPlain t = true) :
    convertNodeToMarkdown (nestedBulletList outer inner) =
        some ("  " ++ "‚Ä¢" ++ " " ++ outer ++
          String.join (inner.map (fun t => "\n" ++ "    " ++ "‚Ä¢" ++ " " ++ t))) ∧
    (∀ (node : ADFNode) (depth maxDepth listDepth : Int) (s : String),
      (node.type = "bulletList" ∨ node.type = "orderedList") →
      (∀ child ∈ node.content, child.type = "listItem") →
      convertNodeToMarkdownWithLimit node depth maxDepth listDepth = some s →
      s.data.getLast? ≠ some '\n') :=
  ⟨convert_nestedBulletList outer inner ho hi,
    fun node depth maxDepth listDepth s ht hc h =>
      list_no_trailing_newline node depth maxDepth listDepth s ht hc h⟩

/-- The statement of C8 at the outer text `A` and the inner texts `B1` and
`B2`. -/
theorem list_nesting_witness :
    convertNodeToMarkdown (nestedBulletList "A" ["B1", "B2"]) =
      some "  ‚Ä¢ A\n    ‚Ä¢ B1\n    ‚Ä¢ B2" :=
  (list_nesting "A" ["B1", "B2"] (by decide) (by decide)).1.trans (by decide)

/-- C9: an orderedList within the ceiling renders as the newline-join of its
entries; entry `i`, counted from 1 inside this list, is the decimal form of
`i`, a dot, a space and the rendering of child `i` at `depth+1` and list
depth `listDepth+1` without its trailing newlines. -/
theorem orderedList_rendering (node : ADFNode) (depth maxDepth listDepth : Int)
    (hd : depth ≤ maxDepth) (ht : node.type = "orderedList") :
    convertNodeToMarkdownWithLimit node depth maxDepth listDepth =
        (renderChildren node.content (depth + 1) maxDepth (listDepth + 1)).map
          (fun items => String.intercalate "\n" (numberedItems 0 items)) ∧
    (∀ items : List String,
      renderChildren node.content (depth + 1) maxDepth (listDepth + 1) = some items ↔
        List.Forall₂
          (fun child item =>
            convertNodeToMarkdownWithLimit child (depth + 1) maxDepth (listDepth + 1) =
              some item)
          node.content items) ∧
    (∀ (first : Nat) (item : String) (rest : List String),
      numberedItems first (item :: rest) =
        (sprintDecimal (first + 1) ++ ". " ++ stringsTrimRight item "\n") ::
          numberedItems (first + 1) rest) := by
  exact ⟨convert_orderedList node depth maxDepth listDepth hd ht,
    fun items => renderChildren_some_iff _ _ _ _ _, fun first item rest => rfl⟩

/-- The statement of C9 at an ordered list nested in an item of an ordered
list: the inner numbers start at 1 again. -/
theorem orderedList_rendering_witness :
    convertNodeToMarkdownWithLimit
      (containerNode "orderedList"
        [containerNode "listItem"
          [containerNode "paragraph" [textNode "a"],
           containerNode "orderedList"
            [containerNode "listItem" [containerNode "paragraph" [textNode "x"]],
             containerNode "listItem" [containerNode "paragraph" [textNode "y"]]]],
         containerNode "listItem" [containerNode "paragraph" [textNode "b"]]])
      0 10 0 = some "1.   ‚Ä¢ a\n1.     ‚Ä¢ x\n2.     ‚Ä¢ y\n2.   ‚Ä¢ b" :=
  (orderedList_rendering
    (containerNode "orderedList"
      [containerNode "listItem"
        [containerNode "paragraph" [textNode "a"],
         containerNode "orderedList"
          [containerNode "listItem" [containerNode "paragraph" [textNode "x"]],
           containerNode "listItem" [containerNode "paragraph" [textNode "y"]]]],
       containerNode "listItem" [containerNode "paragraph" [textNode "b"]]])
    0 10 0 (by decide) rfl).1.trans (by decide)

/-- C10 fails on the code: a heading whose `attrs` bind `level` to -1, with
the text `Title`, has no output at all; the call of `strings.Repeat` with
the count -1 panics. -/
theorem heading_negative_level_no_output :
    ¬ ∃ s : String,
      convertNodeToMarkdownWithLimit (headingNode (-1) [textNode "Title"]) 0 10 0 =
        some s := by
  have h : convertNodeToMarkdownWithLimit (headingNode (-1) [textNode "Title"]) 0 10 0 =
      none := by decide
  simp [h]

/-- C11: a codeBlock within the ceiling renders as three backquotes, the
language, a newline, the concatenation of its children, a newline, three
backquotes and a newline; the language is the string bound to `language` in
`attrs`, or empty without such a string; language `go` with the text
`fmt.Println()` gives the fenced block of the scenario. -/
theorem codeBlock_rendering (node : ADFNode) (depth maxDepth listDepth : Int)
    (hd : depth ≤ maxDepth) (ht : node.type = "codeBlock") :
    convertNodeToMarkdownWithLimit node depth maxDepth listDepth =
        (renderChildren node.content (depth + 1) maxDepth listDepth).map
          (fun items =>
            "```" ++ codeLanguage node ++ "\n" ++ writeAll items ++ "\n```\n") ∧
    convertNodeToMarkdownWithLimit (codeBlockNode "go" [textNode "fmt.Println()"]) 0 10 0 =
      some "```go\nfmt.Println()\n```\n" :=
  ⟨convert_codeBlock node depth maxDepth listDepth hd ht, by decide⟩

/-- The statement of C11 at a code block without `attrs` and two text children. -/
theorem codeBlock_rendering_witness :
    convertNodeToMarkdownWithLimit
      (containerNode "codeBlock" [textNode "a", textNode "b"]) 0 10 0 =
      some "```\nab\n```\n" :=
  (codeBlock_rendering (containerNode "codeBlock" [textNode "a", textNode "b"]) 0 10 0
    (by decide) rfl).1.trans (by decide)

/-- C12, amended: a chain of 15 nested single-child nodes, rendered from depth
0 under the ceiling 10, renders as the wrappers of its outer 11 levels, the
depths 0 to 10, around the placeholder `[...]`, which is the rendering of
the node at depth 11; nothing below that node contributes. -/
theorem depth_fifteen (shells : List ADFNode) (inner : ADFNode)
    (hlen : shells.length = 15) :
    convertNodeToMarkdown (nest shells inner) = wrapAround "[...]" (shells.take 11) 0 ∧
    convertNodeToMarkdownWithLimit (nest (shells.drop 11) inner) 11 10 0 = some "[...]" := by
  refine ⟨?_, ?_⟩
  · exact convert_nest 11 shells inner 0 0 (by decide) (by omega)
  · rw [convert_unfold, if_pos (by decide)]

/-- The statement of C12 at 15 nested headings: 11 wrappers around the
placeholder. -/
theorem depth_fifteen_witness :
    convertNodeToMarkdown
        (nest (List.replicate 15 (containerNode "heading" [])) (textNode "x")) =
      some "# # # # # # # # # # # [...]\n\n\n\n\n\n\n\n\n\n\n" :=
  (depth_fifteen (List.replicate 15 (containerNode "heading" [])) (textNode "x")
    (by decide)).1.trans (by decide)

/-- C12 as stated fails: 15 nested headings do not render as the wrappers of
the outer 10 levels around the placeholder. -/
theorem eleven_levels_not_ten :
    convertNodeToMarkdown
        (nest (List.replicate 15 (containerNode "heading" [])) (textNode "x")) ≠
      wrapAround "[...]" (List.replicate 10 (containerNode "heading" [])) 0 := by
  decide

/-- C13, amended: the text `a` with the marks `strong`, `em` renders as
`***a***`, and so it does with the marks `em`, `strong`; the order of the
marks shows once `code` is among them: `strong`, `code` and `code`, `strong`
give different strings. -/
theorem mark_order_observable :
    convertNodeToMarkdownWithLimit (markedText "a" ["strong", "em"]) 0 10 0 =
        some "***a***" ∧
    convertNodeToMarkdownWithLimit (markedText "a" ["em", "strong"]) 0 10 0 =
        some "***a***" ∧
    convertNodeToMarkdownWithLimit (markedText "a" ["strong", "code"]) 0 10 0 =
        some "`**a**`" ∧
    convertNodeToMarkdownWithLimit (markedText "a" ["code", "strong"]) 0 10 0 =
        some "**`a`**" := by
  decide

/-- C13 as stated fails: the text `a` renders alike with the marks `strong`,
`em` and with the marks `em`, `strong`. -/
theorem strong_em_same_as_em_strong :
    convertNodeToMarkdownWithLimit (markedText "a" ["strong", "em"]) 0 10 0 =
      convertNodeToMarkdownWithLimit (markedText "a" ["em", "strong"]) 0 10 0 := by
  decide

/-- C14, amended: for marks drawn from `strong` and `em` the rendering of a
text node is the same for every permutation of its mark list. -/
theorem mark_order_strong_em (text : String) (marks marks' : List ADFMark)
    (content : List ADFNode) (attrs : Option (List (String × AttrValue)))
    (depth maxDepth listDepth : Int)
    (hs : ∀ mark ∈ marks, mark.type = "strong" ∨ mark.type = "em")
    (hp : marks.Perm marks') :
    convertNodeToMarkdownWithLimit (ADFNode.mk "text" content text marks attrs)
        depth maxDepth listDepth =
      convertNodeToMarkdownWithLimit (ADFNode.mk "text" content text marks' attrs)
        depth maxDepth listDepth := by
  by_cases hd : depth > maxDepth
  · rw [convert_unfold, convert_unfold, if_pos hd, if_pos hd]
  · have hd' : depth ≤ maxDepth := by omega
    have hs' : ∀ mark ∈ marks', mark.type = "strong" ∨ mark.type = "em" :=
      fun m hm => hs m (hp.mem_iff.mpr hm)
    rw [convert_text (ADFNode.mk "text" content text marks attrs) depth maxDepth listDepth
        hd' rfl,
      convert_text (ADFNode.mk "text" content text marks' attrs) depth maxDepth listDepth
        hd' rfl]
    simp only [ADFNode.marks, ADFNode.text]
    rw [foldl_applyMark_asterisks marks text hs, foldl_applyMark_asterisks marks' text hs',
      asterisks_perm marks marks' hp]

/-- The statement of C14 at the marks `strong`, `em`, `strong` and their
permutation `em`, `strong`, `strong`. -/
theorem mark_order_strong_em_witness :
    convertNodeToMarkdownWithLimit (markedText "a" ["strong", "em", "strong"]) 0 10 0 =
      convertNodeToMarkdownWithLimit (markedText "a" ["em", "strong", "strong"]) 0 10 0 :=
  mark_order_strong_em "a" [ADFMark.mk "strong", ADFMark.mk "em", ADFMark.mk "strong"]
    [ADFMark.mk "em", ADFMark.mk "strong", ADFMark.mk "strong"] [] none 0 10 0
    (by decide) (List.Perm.swap _ _ _)

/-- C14 as stated fails: `code`, `strong` is a permutation of `strong`, `code`
and renders differently. -/
theorem code_mark_order_matters :
    List.Perm [ADFMark.mk "strong", ADFMark.mk "code"]
        [ADFMark.mk "code", ADFMark.mk "strong"] ∧
    convertNodeToMarkdownWithLimit (markedText "a" ["strong", "code"]) 0 10 0 ≠
      convertNodeToMarkdownWithLimit (markedText "a" ["code", "strong"]) 0 10 0 :=
  ⟨List.Perm.swap _ _ _, by decide⟩

/-- C15: the nil input, the empty string and the string `null` give `No
description` and a nil error, whatever the collaborators are. -/
theorem empty_input {α : Type} (env : Collaborators α) :
    ConvertADFToMarkdown env AnyValue.nil = ("No description", none) ∧
    ConvertADFToMarkdown env (AnyValue.str "") = ("No description", none) ∧
    ConvertADFToMarkdown env (AnyValue.str "null") = ("No description", none) :=
  ⟨rfl, by simp [ConvertADFToMarkdown], by simp [ConvertADFToMarkdown]⟩

/-- C16: every string other than the empty one and `null` is returned as it
is, with a nil error, whatever the collaborators are. -/
theorem string_pass_through {α : Type} (env : Collaborators α) (s : String)
    (h1 : s ≠ "") (h2 : s ≠ "null") :
    ConvertADFToMarkdown env (AnyValue.str s) = (s, none) := by
  simp [ConvertADFToMarkdown, h1, h2]

/-- The statement of C16 at a string that is JSON text of a node, with
surrounding white space and asterisks. -/
theorem string_pass_through_witness :
    ConvertADFToMarkdown toolEnv
        (AnyValue.str "  \x7b\"type\":\"text\",\"text\":\"****\"\x7d \n") =
      ("  \x7b\"type\":\"text\",\"text\":\"****\"\x7d \n", none) :=
  string_pass_through toolEnv "  \x7b\"type\":\"text\",\"text\":\"****\"\x7d \n"
    (by decide) (by decide)

/-- C17, amended: the entry point returns a nil error for the nil input, for
every string, and for every other value that `json.Marshal` encodes; when
`json.Marshal` fails on the value, its error is returned, wrapped, with the
empty string. -/
theorem converter_error_only_from_marshal {α : Type} (env : Collaborators α)
    (input : AnyValue α) :
    ((∀ v, input = AnyValue.other v → ∃ jsonData, env.jsonMarshal input = Except.ok jsonData) →
      (ConvertADFToMarkdown env input).2 = none) ∧
    (∀ v err, input = AnyValue.other v → env.jsonMarshal input = Except.error err →
      ConvertADFToMarkdown env input =
        ("", some ("failed to marshal ADF content: " ++ err))) := by
  refine ⟨fun h => ?_, fun v err hv he => ?_⟩
  · cases input with
    | nil => rfl
    | str s =>
      simp only [ConvertADFToMarkdown]
      split <;> rfl
    | other v =>
      obtain ⟨jsonData, hj⟩ := h v rfl
      simp only [ConvertADFToMarkdown, hj]
      cases convertWithADF2MD env jsonData with
      | ok markdown => rfl
      | error e => exact convertADFSimple_err env _ jsonData hj
  · subst hv
    simp only [ConvertADFToMarkdown, he]

/-- The statement of C17 at the value 5 without the external program. -/
theorem converter_error_only_from_marshal_witness :
    (ConvertADFToMarkdown numberEnv (AnyValue.other ())).2 = none :=
  (converter_error_only_from_marshal numberEnv (AnyValue.other ())).1
    (fun _ _ => ⟨"5", rfl⟩)

/-- C17 as stated fails: a value that `json.Marshal` rejects makes the entry
point return an error. -/
theorem marshal_error_surfaces :
    ConvertADFToMarkdown rejectingEnv (AnyValue.other ()) =
      ("", some "failed to marshal ADF content: json: unsupported type: chan int") := by
  decide

/-- C18: when the JSON text of the input does not decode into a node,
`convertADFSimple` returns that JSON text with a nil error, and so does the
entry point for an input that is neither nil nor a string when the external
program gives no result. -/
theorem decode_failure_gives_json {α : Type} (env : Collaborators α) (input : AnyValue α)
    (jsonData err : String)
    (hm : env.jsonMarshal input = Except.ok jsonData)
    (hu : env.jsonUnmarshal jsonData = Except.error err) :
    convertADFSimple env input = (jsonData, none) ∧
    (∀ v, input = AnyValue.other v →
      (∀ markdown, convertWithADF2MD env jsonData ≠ Except.ok markdown) →
      ConvertADFToMarkdown env input = (jsonData, none)) := by
  have hs : convertADFSimple env input = (jsonData, none) := by
    simp only [convertADFSimple, hm, hu]
  refine ⟨hs, fun v hv ht => ?_⟩
  subst hv
  simp only [ConvertADFToMarkdown, hm]
  cases hc : convertWithADF2MD env jsonData with
  | ok markdown => exact absurd hc (ht markdown)
  | error e => exact hs

/-- The statement of C18 at the value 5, whose JSON text is `5`. -/
theorem decode_failure_gives_json_witness :
    ConvertADFToMarkdown numberEnv (AnyValue.other ()) = ("5", none) :=
  (decode_failure_gives_json numberEnv (AnyValue.other ()) "5"
    "json: cannot unmarshal number into Go value of type jira.ADFNode" rfl rfl).2 ()
    rfl (fun _ h => by cases h)

/-- C19: for an input that is neither nil nor a string, with JSON text
`jsonData`: when the external program is absent or its run fails, the entry
point returns what `convertADFSimple` returns, which for a decodable tree is
the rendering at depth 0, ceiling 10 and list depth 0 (empty after a panic);
when the run succeeds, the entry point returns its output trimmed of
surrounding white space, with a nil error. -/
theorem tool_delegation {α : Type} (env : Collaborators α) (v : α) (jsonData : String)
    (hm : env.jsonMarshal (AnyValue.other v) = Except.ok jsonData) :
    ((env.adf2md = none ∨
        ∃ run err, env.adf2md = some run ∧ run jsonData = Except.error err) →
      ConvertADFToMarkdown env (AnyValue.other v) =
        convertADFSimple env (AnyValue.other v)) ∧
    (∀ node, env.jsonUnmarshal jsonData = Except.ok node →
      convertADFSimple env (AnyValue.other v) =
        match convertNodeToMarkdownWithLimit node 0 10 0 with
        | some markdown => (markdown, none)
        | none => ("", none)) ∧
    (∀ run output, env.adf2md = some run → run jsonData = Except.ok output →
      ConvertADFToMarkdown env (AnyValue.other v) = (stringsTrimSpace output, none)) := by
  refine ⟨fun h => ?_, fun node hn => ?_, fun run output hr ho => ?_⟩
  · rcases h with h | ⟨run, err, hr, he⟩
    · simp only [ConvertADFToMarkdown, hm, convertWithADF2MD, h]
    · simp only [ConvertADFToMarkdown, hm, convertWithADF2MD, hr, he]
  · simp only [convertADFSimple, hm, hn, convertNodeToMarkdown]
  · simp only [ConvertADFToMarkdown, hm, convertWithADF2MD, hr, ho]

/-- The statement of C19 at a run of the external program that succeeds. -/
theorem tool_delegation_witness :
    ConvertADFToMarkdown toolEnv (AnyValue.other ()) = ("# T", none) :=
  ((tool_delegation toolEnv () _ rfl).2.2 _ " # T \n" rfl rfl).trans (by decide)

/-- C20: a node whose type has no case of its own, within the ceiling,
renders as the concatenation of the renderings of its children at `depth+1`
and the same list depth; as the empty string without content; alike
whatever its text, marks and attrs are; the empty type and `doc` are such
types. -/
theorem unknown_type_pass_through (node : ADFNode) (depth maxDepth listDepth : Int)
    (hd : depth ≤ maxDepth) (ht : node.type ∉ knownTypes) :
    convertNodeToMarkdownWithLimit node depth maxDepth listDepth =
        (renderChildren node.content (depth + 1) maxDepth listDepth).map writeAll ∧
    (node.content = [] →
      convertNodeToMarkdownWithLimit node depth maxDepth listDepth = some "") ∧
    (∀ (text : String) (marks : List ADFMark) (attrs : Option (List (String × AttrValue))),
      convertNodeToMarkdownWithLimit
          (ADFNode.mk node.type node.content text marks attrs) depth maxDepth listDepth =
        convertNodeToMarkdownWithLimit node depth maxDepth listDepth) ∧
    "" ∉ knownTypes ∧ "doc" ∉ knownTypes := by
  refine ⟨convert_unknown node depth maxDepth listDepth hd ht, ?_, ?_, by decide, by decide⟩
  · intro hc
    rw [convert_unknown node depth maxDepth listDepth hd ht, hc, renderChildren]
    rfl
  · intro text marks attrs
    rw [convert_unknown node depth maxDepth listDepth hd ht,
      convert_unknown _ depth maxDepth listDepth hd (by simpa [ADFNode.type] using ht)]
    rfl

/-- The statement of C20 at a `doc` node with text, a mark and two children. -/
theorem unknown_type_pass_through_witness :
    convertNodeToMarkdownWithLimit
      (ADFNode.mk "doc" [textNode "a", textNode "b"] "ignored" [ADFMark.mk "strong"] none)
      0 10 0 = some "ab" :=
  (unknown_type_pass_through
    (ADFNode.mk "doc" [textNode "a", textNode "b"] "ignored" [ADFMark.mk "strong"] none)
    0 10 0 (by decide) (by decide)).1.trans (by decide)

/-- C21: within the ceiling a link whose `attrs.href` is a string, and an
inlineCard whose `attrs.url` is a string, render as `AutoFormatEmoji` of it:
the url emoji, a space and the string when it starts with `http://` or
`https://`, else the ticket emoji, a space and the string when it starts
with capital letters, a dash and a digit, else the string itself; without
such a string they render as the url emoji and ` unknown`; the children do
not matter. -/
theorem link_rendering (node : ADFNode) (depth maxDepth listDepth : Int)
    (hd : depth ≤ maxDepth) :
    (node.type = "link" →
      (∀ h, attrString node "href" = some h →
        convertNodeToMarkdownWithLimit node depth maxDepth listDepth =
          some (AutoFormatEmoji h)) ∧
      (attrString node "href" = none →
        convertNodeToMarkdownWithLimit node depth maxDepth listDepth =
          some ("🔗" ++ " unknown"))) ∧
    (node.type = "inlineCard" →
      (∀ h, attrString node "url" = some h →
        convertNodeToMarkdownWithLimit node depth maxDepth listDepth =
          some (AutoFormatEmoji h)) ∧
      (attrString node "url" = none →
        convertNodeToMarkdownWithLimit node depth maxDepth listDepth =
          some ("🔗" ++ " unknown"))) ∧
    (∀ h : String,
      (stringsHasPrefix h "http://" = true ∨ stringsHasPrefix h "https://" = true →
        AutoFormatEmoji h = "🔗" ++ " " ++ h) ∧
      (stringsHasPrefix h "http://" = false → stringsHasPrefix h "https://" = false →
        StartsWithTicketKey h → AutoFormatEmoji h = "🎫" ++ " " ++ h) ∧
      (stringsHasPrefix h "http://" = false → stringsHasPrefix h "https://" = false →
        ¬ StartsWithTicketKey h → AutoFormatEmoji h = h)) ∧
    FormatWithEmoji "unknown" "url" = "🔗" ++ " unknown" ∧
    (node.type = "link" ∨ node.type = "inlineCard" →
      ∀ content : List ADFNode,
        convertNodeToMarkdownWithLimit
            (ADFNode.mk node.type content node.text node.marks node.attrs)
            depth maxDepth listDepth =
          convertNodeToMarkdownWithLimit node depth maxDepth listDepth) := by
  have hu : FormatWithEmoji "unknown" "url" = "🔗" ++ " unknown" := by decide
  refine ⟨fun ht => ⟨fun h hh => ?_, fun hh => ?_⟩, fun ht => ⟨fun h hh => ?_, fun hh => ?_⟩,
    autoFormatEmoji_cases, hu, fun ht content => ?_⟩
  · rw [convert_link node depth maxDepth listDepth hd ht, hh]
  · rw [convert_link node depth maxDepth listDepth hd ht, hh, ← hu]
  · rw [convert_inlineCard node depth maxDepth listDepth hd ht, hh]
  · rw [convert_inlineCard node depth maxDepth listDepth hd ht, hh, ← hu]
  · rcases ht with ht | ht
    · rw [convert_link node depth maxDepth listDepth hd ht,
        convert_link _ depth maxDepth listDepth hd (by simpa [ADFNode.type] using ht)]
      rfl
    · rw [convert_inlineCard node depth maxDepth listDepth hd ht,
        convert_inlineCard _ depth maxDepth listDepth hd (by simpa [ADFNode.type] using ht)]
      rfl

/-- The statement of C21 at a link to a ticket key with a child. -/
theorem link_rendering_witness :
    convertNodeToMarkdownWithLimit
      (attrNode "link" [("href", AttrValue.str "PROJ-12")] [textNode "see"]) 0 10 0 =
      some "🎫 PROJ-12" :=
  ((link_rendering (attrNode "link" [("href", AttrValue.str "PROJ-12")] [textNode "see"])
    0 10 0 (by decide)).1 rfl).1 "PROJ-12" rfl |>.trans (by decide)

/-- C22, amended: within the ceiling an image whose `attrs.src` is a string
other than the empty one renders as `![alt](src)`, where alt is the string
`attrs.alt` or `Image` without one; without a string `attrs.src`, or with
the empty one, it renders as `@image`. -/
theorem image_rendering (node : ADFNode) (depth maxDepth listDepth : Int)
    (hd : depth ≤ maxDepth) (ht : node.type = "image") :
    (∀ src, attrString node "src" = some src → src ≠ "" →
      convertNodeToMarkdownWithLimit node depth maxDepth listDepth =
        some ("![" ++ (attrString node "alt").getD "Image" ++ "](" ++ src ++ ")")) ∧
    (attrString node "src" = none ∨ attrString node "src" = some "" →
      convertNodeToMarkdownWithLimit node depth maxDepth listDepth = some "@image") := by
  refine ⟨fun src hs hne => ?_, fun hs => ?_⟩
  · rw [convert_image node depth maxDepth listDepth hd ht, hs]
    simp [hne]
  · rw [convert_image node depth maxDepth listDepth hd ht]
    rcases hs with hs | hs <;> simp [hs]

/-- The statement of C22 at an image with a source and no alt. -/
theorem image_rendering_witness :
    convertNodeToMarkdownWithLimit
      (attrNode "image" [("src", AttrValue.str "a.png")] []) 0 10 0 =
      some "![Image](a.png)" :=
  ((image_rendering (attrNode "image" [("src", AttrValue.str "a.png")] []) 0 10 0
    (by decide) rfl).1 "a.png" rfl (by decide)).trans (by decide)

/-- C22 as stated fails: with `attrs.src` present and empty the image does not
render as `![logo]()`. -/
theorem image_empty_src :
    attrString (attrNode "image" [("src", AttrValue.str ""), ("alt", AttrValue.str "logo")] [])
        "src" = some "" ∧
    convertNodeToMarkdownWithLimit
        (attrNode "image" [("src", AttrValue.str ""), ("alt", AttrValue.str "logo")] [])
        0 10 0 ≠ some ("![" ++ "logo" ++ "](" ++ "" ++ ")") := by
  decide

/-- C23: within the ceiling a mention renders as the string `attrs.text`, else
as the string `attrs.displayName`, else as `@unknown`, also without `attrs`. -/
theorem mention_rendering (node : ADFNode) (depth maxDepth listDepth : Int)
    (hd : depth ≤ maxDepth) (ht : node.type = "mention") :
    (∀ text, attrString node "text" = some text →
      convertNodeToMarkdownWithLimit node depth maxDepth listDepth = some text) ∧
    (∀ displayName, attrString node "text" = none →
      attrString node "displayName" = some displayName →
      convertNodeToMarkdownWithLimit node depth maxDepth listDepth = some displayName) ∧
    (attrString node "text" = none → attrString node "displayName" = none →
      convertNodeToMarkdownWithLimit node depth maxDepth listDepth = some "@unknown") ∧
    (node.attrs = none →
      convertNodeToMarkdownWithLimit node depth maxDepth listDepth = some "@unknown") := by
  refine ⟨fun text h => ?_, fun displayName h1 h2 => ?_, fun h1 h2 => ?_, fun ha => ?_⟩
  · rw [convert_mention node depth maxDepth listDepth hd ht, h]
  · rw [convert_mention node depth maxDepth listDepth hd ht, h1, h2]
  · rw [convert_mention node depth maxDepth listDepth hd ht, h1, h2]
  · rw [convert_mention node depth maxDepth listDepth hd ht, attrString_nil node _ ha,
      attrString_nil node _ ha]

/-- The statement of C23 at a mention with both strings: the text wins. -/
theorem mention_rendering_witness :
    convertNodeToMarkdownWithLimit
      (attrNode "mention"
        [("displayName", AttrValue.str "Ada"), ("text", AttrValue.str "@ada")] [])
      0 10 0 = some "@ada" :=
  (mention_rendering
    (attrNode "mention"
      [("displayName", AttrValue.str "Ada"), ("text", AttrValue.str "@ada")] [])
    0 10 0 (by decide) rfl).1 "@ada" rfl

/-- C24: within the ceiling an emoji renders as the string `attrs.text`, else
as the string `attrs.shortName` between colons, else as `:unknown:`. -/
theorem emoji_rendering (node : ADFNode) (depth maxDepth listDepth : Int)
    (hd : depth ≤ maxDepth) (ht : node.type = "emoji") :
    (∀ text, attrString node "text" = some text →
      convertNodeToMarkdownWithLimit node depth maxDepth listDepth = some text) ∧
    (∀ shortName, attrString node "text" = none →
      attrString node "shortName" = some shortName →
      convertNodeToMarkdownWithLimit node depth maxDepth listDepth =
        some (":" ++ shortName ++ ":")) ∧
    (attrString node "text" = none → attrString node "shortName" = none →
      convertNodeToMarkdownWithLimit node depth maxDepth listDepth = some ":unknown:") := by
  refine ⟨fun text h => ?_, fun shortName h1 h2 => ?_, fun h1 h2 => ?_⟩
  · rw [convert_emoji node depth maxDepth listDepth hd ht, h]
  · rw [convert_emoji node depth maxDepth listDepth hd ht, h1, h2]
  · rw [convert_emoji node depth maxDepth listDepth hd ht, h1, h2]

/-- The statement of C24 at an emoji whose text is a number and whose short
name is `smile`. -/
theorem emoji_rendering_witness :
    convertNodeToMarkdownWithLimit
      (attrNode "emoji" [("text", AttrValue.num 1), ("shortName", AttrValue.str "smile")] [])
      0 10 0 = some ":smile:" :=
  (emoji_rendering
    (attrNode "emoji" [("text", AttrValue.num 1), ("shortName", AttrValue.str "smile")] [])
    0 10 0 (by decide) rfl).2.1 "smile" rfl rfl

/-- C25 fails on the code: the key `12abc` has no dash and is not a number, yet
it gets the project and a dash in front. -/
theorem prefix_added_to_non_number :
    hasDashAfterFirst "12abc" = false ∧ isNumber "12abc" = false ∧
    NormalizeIssueKey "12abc" "PROJ" = "PROJ-12abc" := by
  decide

/-- C26: within the ceiling minus one, a paragraph of two adjacent `strong`
texts `a` and `b` without asterisks, `a` not empty, renders as `**`, `a`,
`b`, `**` and a newline. -/
theorem adjacent_bold_spans (a b : String) (ha : a ≠ "") (hsa : '*' ∉ a.data)
    (hsb : '*' ∉ b.data) (depth maxDepth listDepth : Int) (hd : depth ≤ maxDepth - 1) :
    convertNodeToMarkdownWithLimit (twoBoldSpans a b) depth maxDepth listDepth =
      some ("**" ++ a ++ b ++ "**\n") :=
  convert_twoBoldSpans a b ha hsa hsb depth maxDepth listDepth (by omega)

/-- The statement of C26 at the texts `Hello ` and `world`. -/
theorem adjacent_bold_spans_witness :
    convertNodeToMarkdownWithLimit (twoBoldSpans "Hello " "world") 0 10 0 =
      some "**Hello world**\n" :=
  (adjacent_bold_spans "Hello " "world" (by decide) (by decide) (by decide) 0 10 0
    (by decide)).trans (by decide)

/-- C27: whatever a paragraph renders to, at any depth and list depth, holds
no three asterisks in a row; the removal of `****` leaves the leading run
modulo 4 and no four in a row, and the replacement of `***` then leaves no
three in a row. -/
theorem no_asterisk_runs (node : ADFNode) (depth maxDepth listDepth : Int) (s : String)
    (ht : node.type = "paragraph")
    (h : convertNodeToMarkdownWithLimit node depth maxDepth listDepth = some s) :
    stringsContains s "***" = false ∧
    (∀ text : String,
      leadingStars (stringsReplaceAll text "****" "").data = leadingStars text.data % 4 ∧
      stringsContains (stringsReplaceAll text "****" "") "****" = false ∧
      stringsContains
        (stringsReplaceAll (stringsReplaceAll text "****" "") "***" "*") "***" = false) := by
  refine ⟨?_, fun text => ⟨(removeFour_invariant text.data).2,
    (removeFour_invariant text.data).1,
    (collapseThree_invariant _ (removeFour_invariant text.data).1).1⟩⟩
  by_cases hd : depth > maxDepth
  · rw [convert_unfold, if_pos hd] at h
    cases h
    decide
  · rw [convert_paragraph node depth maxDepth listDepth (by omega) ht] at h
    cases hk : renderChildren node.content (depth + 1) maxDepth listDepth with
    | none => simp [hk] at h
    | some items =>
      simp only [hk, Option.map_some', Option.some.injEq] at h
      subst h
      exact paragraphText_no_run _

/-- The statement of C27 at a paragraph whose children hold runs of 5, 7 and
3 asterisks. -/
theorem no_asterisk_runs_witness :
    convertNodeToMarkdownWithLimit
        (containerNode "paragraph" [textNode "a*****b***", textNode "****c"]) 0 10 0 =
      some "a*b*c\n" ∧
    stringsContains "a*b*c\n" "***" = false :=
  ⟨by decide,
    (no_asterisk_runs
      (containerNode "paragraph" [textNode "a*****b***", textNode "****c"]) 0 10 0
      "a*b*c\n" rfl (by decide)).1⟩

/-- C28: within the ceiling minus one, a paragraph whose only child is a text
`t`, not empty and without asterisks, marked `strong` and `em` in either
order, renders as `*`, `t`, `*` and a newline, while the text node itself
renders with three asterisks on each side. -/
theorem bold_italic_in_paragraph (t : String) (ht : t ≠ "") (hs : '*' ∉ t.data)
    (depth maxDepth listDepth : Int) (hd : depth + 1 ≤ maxDepth) :
    convertNodeToMarkdownWithLimit
        (containerNode "paragraph" [markedText t ["strong", "em"]])
        depth maxDepth listDepth = some ("*" ++ t ++ "*\n") ∧
    convertNodeToMarkdownWithLimit
        (containerNode "paragraph" [markedText t ["em", "strong"]])
        depth maxDepth listDepth = some ("*" ++ t ++ "*\n") ∧
    convertNodeToMarkdownWithLimit (markedText t ["strong", "em"])
        (depth + 1) maxDepth listDepth = some ("***" ++ t ++ "***") ∧
    convertNodeToMarkdownWithLimit (markedText t ["em", "strong"])
        (depth + 1) maxDepth listDepth = some ("***" ++ t ++ "***") := by
  refine ⟨convert_boldItalicParagraph t ht hs _ (Or.inl rfl) depth maxDepth listDepth hd,
    convert_boldItalicParagraph t ht hs _ (Or.inr rfl) depth maxDepth listDepth hd, ?_, ?_⟩
  · rw [convert_markedText t _ _ _ _ hd]
    exact congrArg some (bold_italic_text t).1
  · rw [convert_markedText t _ _ _ _ hd]
    exact congrArg some (bold_italic_text t).2

/-- The statement of C28 at the text `note`. -/
theorem bold_italic_in_paragraph_witness :
    convertNodeToMarkdownWithLimit
      (containerNode "paragraph" [markedText "note" ["strong", "em"]]) 0 10 0 =
      some "*note*\n" :=
  (bold_italic_in_paragraph "note" (by decide) (by decide) 0 10 0 (by decide)).1.trans
    (by decide)

/-- C29: when the renderer panics on the decoded tree, `convertADFSimple`
returns the empty string and a nil error, and so does the entry point when
the external program gives no result; a `doc` that holds a heading of level
-1 is such a tree. -/
theorem panic_swallowed {α : Type} (env : Collaborators α) (input : AnyValue α)
    (jsonData : String) (node : ADFNode)
    (hm : env.jsonMarshal input = Except.ok jsonData)
    (hu : env.jsonUnmarshal jsonData = Except.ok node)
    (hp : convertNodeToMarkdown node = none) :
    convertADFSimple env input = ("", none) ∧
    (∀ v, input = AnyValue.other v →
      (∀ markdown, convertWithADF2MD env jsonData ≠ Except.ok markdown) →
      ConvertADFToMarkdown env input = ("", none)) ∧
    convertNodeToMarkdown
      (containerNode "doc"
        [containerNode "paragraph" [textNode "intro"], headingNode (-1) [textNode "Title"]]) =
      none := by
  have hs := convertADFSimple_panic env input jsonData node hm hu hp
  refine ⟨hs, fun v hv ht => ?_, by decide⟩
  subst hv
  simp only [ConvertADFToMarkdown, hm]
  cases hc : convertWithADF2MD env jsonData with
  | ok markdown => exact absurd hc (ht markdown)
  | error e => exact hs

/-- The statement of C29 at the document with a paragraph and a heading of
level -1. -/
theorem panic_swallowed_witness :
    ConvertADFToMarkdown negativeLevelEnv (AnyValue.other ()) = ("", none) :=
  (panic_swallowed negativeLevelEnv (AnyValue.other ()) _ _ rfl rfl (by decide)).2.1 ()
    rfl (fun _ h => by cases h)

/-- C30: for a tree of height `h`, when `d + h ≤ m` and `h ≤ m'` the rendering
from depth `d` under the ceiling `m` is the rendering from depth 0 under the
ceiling `m'`; both are the rendering without the guard, and so is
`convertNodeToMarkdown` on a tree of height at most 10. -/
theorem guard_invisible (node : ADFNode) (d m m' listDepth : Int)
    (h1 : d + height node ≤ m) (h2 : (height node : Int) ≤ m') :
    convertNodeToMarkdownWithLimit node d m listDepth =
        convertNodeToMarkdownWithLimit node 0 m' listDepth ∧
    convertNodeToMarkdownWithLimit node d m listDepth = renderUnlimited node listDepth ∧
    ((height node : Int) ≤ 10 → convertNodeToMarkdown node = renderUnlimited node 0) := by
  have e1 := convert_eq_unlimited node d m listDepth h1
  have e2 := convert_eq_unlimited node 0 m' listDepth (by omega)
  exact ⟨e1.trans e2.symm, e1, fun h => convert_eq_unlimited node 0 10 0 (by omega)⟩

/-- The statement of C30 at a chain of height 3, from depth 7 under the
ceiling 10 and from depth 0 under the ceiling 3. -/
theorem guard_invisible_witness :
    convertNodeToMarkdownWithLimit (nestedDocs 3) 7 10 2 =
      convertNodeToMarkdownWithLimit (nestedDocs 3) 0 3 2 :=
  (guard_invisible (nestedDocs 3) 7 10 3 2 (by decide) (by decide)).1

end Jira
